import Mathlib

/-!
Shallow embedding of `src/facade/application.go` (baetyl-cloud application
lifecycle facade) and proofs about its orchestration of the application,
cron, configuration and node-index stores.

The facade code is the authority for every control-flow decision.  The
store collaborators (`a.app`, `a.cron`, `a.config`, `a.node`, `a.index`,
`a.txFactory`) are not part of the shown source; their semantics are
modelled from the spec (§3, §4, §6): the transaction manager buffers every
mutation made through the `tx` handle and applies it atomically on commit,
while calls that do not receive `tx` (all Cron operations in the source)
take effect immediately on the live store.
-/

namespace Baetyl

/-- Source constant `FunctionConfigPrefix = "baetyl-function-config"`. -/
def FunctionConfigPfx : String := "baetyl-function-config"

/-- Source constant `FunctionProgramConfigPrefix = "baetyl-function-program-config"`. -/
def FunctionProgramConfigPfx : String := "baetyl-function-program-config"

/-- Modelled from the spec: `common.Config` (the entity-type tag used in
dirty-data diagnostics) is not in src/; modelled as its tag string. -/
def configEntity : String := "config"

/-- Go byte-wise `strings.HasPrefix name p`, on the character lists. -/
def strStartsWith (s p : String) : Bool := p.data.isPrefixOf s.data

/-- `specV1.CronStatus`: NotSet / Wait / Scheduled. -/
inductive CronStatus where
  | notSet
  | wait
  | scheduled
deriving DecidableEq, Repr

/-- `models.Cron`: cron record keyed by (name, namespace). -/
structure Cron where
  name : String
  nameSpace : String
  selector : String
  cronTime : String
deriving DecidableEq, Repr

/-- The `v.VolumeSource.Config` reference (a named Configuration). -/
structure VolumeConfig where
  name : String
deriving DecidableEq, Repr

/-- An application volume; `config = none` models a nil `VolumeSource.Config`. -/
structure Volume where
  config : Option VolumeConfig
deriving DecidableEq, Repr

/-- `specV1.Application`: the fields the facade reads or writes. -/
structure Application where
  name : String
  nameSpace : String
  version : String
  selector : String
  cronStatus : CronStatus
  cronTime : String
  volumes : List Volume
deriving DecidableEq, Repr

/-- `specV1.Configuration`: name plus opaque payload (to observe "untouched"). -/
structure Configuration where
  name : String
  payload : String
deriving DecidableEq, Repr

/-- Dirty-data diagnostic: entity type, namespace, name (`common.LogDirtyData`). -/
structure Diag where
  entity : String
  nameSpace : String
  name : String
deriving DecidableEq, Repr

/-- Association-list lookup keyed by a (namespace, name) pair. -/
def lookupEntry {α : Type} (l : List ((String × String) × α)) (k : String × String) :
    Option α :=
  (l.find? (fun kv => decide (kv.1 = k))).map (fun kv => kv.2)

/-- Association-list upsert: replaces every entry at the key. -/
def upsertEntry {α : Type} (l : List ((String × String) × α)) (k : String × String)
    (v : α) : List ((String × String) × α) :=
  (k, v) :: l.filter (fun kv => !decide (kv.1 = k))

/-- Association-list delete at a key (no-op when the key is absent). -/
def deleteEntry {α : Type} (l : List ((String × String) × α)) (k : String × String) :
    List ((String × String) × α) :=
  l.filter (fun kv => !decide (kv.1 = k))

/-- Modelled from the spec: the transaction-scoped stores (ApplicationRepository,
ConfigRepository, IndexRepository) — every facade mutation to them goes through
the `tx` handle.  `apps` and `configs` are keyed by (namespace, name); `index`
maps (namespace, appName) to the node set. -/
structure Persist where
  apps : List ((String × String) × Application)
  configs : List ((String × String) × Configuration)
  index : List ((String × String) × List String)
deriving DecidableEq, Repr

/-- The whole observable store state.  `persist` is the transactional part;
`crons` is the CronRepository, which the facade calls without the `tx`
handle; `diags` is the dirty-data diagnostic log. -/
structure Store where
  persist : Persist
  crons : List Cron
  diags : List Diag
deriving DecidableEq, Repr

/-- Modelled from the spec: `CronRepository.Get(name, ns)`. -/
def findCron (crons : List Cron) (name ns : String) : Option Cron :=
  crons.find? (fun c => decide (c.name = name ∧ c.nameSpace = ns))

/-- True when a cron record with the key exists. -/
def hasCron (crons : List Cron) (name ns : String) : Bool :=
  crons.any (fun c => decide (c.name = name ∧ c.nameSpace = ns))

/-- Modelled from the spec: `CronRepository.Create(cron)` inserts the record. -/
def createCron (crons : List Cron) (c : Cron) : List Cron :=
  c :: crons

/-- Modelled from the spec (§4.3 step 2): `CronRepository.Update(cron)` has
create-or-update semantics on the (name, namespace) key. -/
def upsertCron (crons : List Cron) (c : Cron) : List Cron :=
  c :: crons.filter (fun c0 => !decide (c0.name = c.name ∧ c0.nameSpace = c.nameSpace))

/-- Modelled from the spec: `CronRepository.Delete(name, ns)` removes the
record; deleting an absent record is a no-op. -/
def deleteCronRec (crons : List Cron) (name ns : String) : List Cron :=
  crons.filter (fun c0 => !decide (c0.name = name ∧ c0.nameSpace = ns))

/-- Trace of collaborator calls made by one facade operation.  The Bool on
`configDelete` records whether the call received the `tx` handle. -/
inductive Event where
  | beginTx
  | commitTx
  | rollbackTx
  | configUpsert (ns name : String)
  | cronCreate (name ns : String)
  | cronUpdate (name ns : String)
  | cronDelete (name ns : String)
  | appCreate (ns name : String)
  | appUpdate (ns name : String)
  | appDelete (ns name : String)
  | nodeUpdateAppVersion (ns name : String)
  | nodeDeleteAppVersion (ns name : String)
  | indexRefresh (ns appName : String) (nodes : List String)
  | configDelete (ns name : String) (viaTx : Bool)
deriving DecidableEq, Repr

/-- Fault injection: which collaborator calls are forced to fail.  One flag
per call site of the facade; the string-indexed ones choose by entity name. -/
structure Faults where
  configUpsertFail : String → Bool
  cronCreateFail : Bool
  cronUpdateFail : Bool
  cronDeleteFail : Bool
  cronGetFail : Bool
  appCreateFail : Bool
  appUpdateFail : Bool
  appDeleteFail : Bool
  nodeUpdateFail : Bool
  nodeDeleteFail : Bool
  indexRefreshDeleteFail : Bool
  indexRefreshUpdateFail : Bool
  configDeleteFail : String → Bool

/-- The no-fault oracle: every collaborator call succeeds. -/
def noFaults : Faults :=
  ⟨fun _ => false, false, false, false, false, false, false, false, false,
   false, false, false, fun _ => false⟩

/-- Faults that only force generated-config deletions (chosen by name) to
fail; every other collaborator call succeeds. -/
def deleteOnlyFaults (g : String → Bool) : Faults :=
  ⟨fun _ => false, false, false, false, false, false, false, false, false,
   false, false, false, g⟩

/-- Modelled from the spec: the node collaborator answers which nodes match a
selector (`NodeRepository.UpdateNodeAppVersion` returns that node set). -/
structure Env where
  selectNodes : String → List String

/-- Where a nil-pointer dereference of `oldApp` would fire inside `UpdateApp`:
at the Wait-to-NotSet check (`oldApp.CronStatus`, the first dereference), or
in the reconciliation loop over `oldApp.Volumes`. -/
inductive PanicSite where
  | oldAppCronStatusCheck
  | oldAppVolumesIter
deriving DecidableEq, Repr

/-- Outcome of one facade operation: normal return (`DeleteApp` carries no
application, hence the Option), error return, or a propagated panic. -/
inductive Outcome where
  | ok (app : Option Application)
  | err
  | panicked (site : PanicSite)
deriving DecidableEq, Repr

/-- Result of running one facade operation: its outcome, the store state
observable afterwards, and the trace of collaborator calls. -/
structure RunResult where
  outcome : Outcome
  store : Store
  events : List Event
deriving DecidableEq, Repr

/-- `updateGenConfigsOfFunctionApp(tx, namespace, configs)`: upsert every
supplied Configuration through the `tx` handle, stopping at the first
failure (`none`).  Returns the new tx buffer and the extended trace. -/
def updateGenConfigsOfFunctionApp (f : Faults) (ns : String)
    (configs : List Configuration) (tx : Persist) (evs : List Event) :
    Option Persist × List Event :=
  match configs with
  | [] => (some tx, evs)
  | cfg :: rest =>
    let evs2 := evs ++ [Event.configUpsert ns cfg.name]
    if f.configUpsertFail cfg.name then (none, evs2)
    else
      updateGenConfigsOfFunctionApp f ns rest
        { tx with configs := upsertEntry tx.configs (ns, cfg.name) cfg } evs2

/-- Survivor set `m` of `cleanGenConfigsOfFunctionApp`: the names of the
supplied Configurations. -/
def survivorSet (configs : List Configuration) : List String :=
  configs.map (fun c => c.name)

/-- The deletion guard of `cleanGenConfigsOfFunctionApp`: the volume's config
name is not in the survivor set and carries one of the two reserved
generation prefixes. -/
def genConfigCandidate (survivors : List String) (n : String) : Bool :=
  !decide (n ∈ survivors) &&
    (strStartsWith n FunctionConfigPfx || strStartsWith n FunctionProgramConfigPfx)

/-- The loop body of `cleanGenConfigsOfFunctionApp` over `oldApp.Volumes`:
each matching Configuration is deleted through the `tx` handle; a deletion
failure is logged as a dirty-data diagnostic and the loop continues. -/
def cleanGenVolumes (f : Faults) (survivors : List String) (ns : String)
    (vols : List Volume) (tx : Persist) (diags : List Diag) (evs : List Event) :
    Persist × List Diag × List Event :=
  match vols with
  | [] => (tx, diags, evs)
  | v :: rest =>
    match v.config with
    | none => cleanGenVolumes f survivors ns rest tx diags evs
    | some vc =>
      if genConfigCandidate survivors vc.name then
        let evs2 := evs ++ [Event.configDelete ns vc.name true]
        if f.configDeleteFail vc.name then
          cleanGenVolumes f survivors ns rest tx
            (diags ++ [⟨configEntity, ns, vc.name⟩]) evs2
        else
          cleanGenVolumes f survivors ns rest
            { tx with configs := deleteEntry tx.configs (ns, vc.name) } diags evs2
      else cleanGenVolumes f survivors ns rest tx diags evs

/-- `cleanGenConfigsOfFunctionApp(tx, configs, oldApp)`: the generated-config
reconciliation.  Deletions are keyed by `oldApp.Namespace` and go through the
`tx` handle; the function never returns an error. -/
def cleanGenConfigsOfFunctionApp (f : Faults) (configs : List Configuration)
    (oldApp : Application) (tx : Persist) (diags : List Diag) (evs : List Event) :
    Persist × List Diag × List Event :=
  cleanGenVolumes f (survivorSet configs) oldApp.nameSpace oldApp.volumes tx diags evs

/-- `DeleteNodeAndAppIndex(tx, namespace, app)`: delete the node/app version
mapping, then refresh the application's node index to the empty node set. -/
def DeleteNodeAndAppIndex (f : Faults) (ns : String) (app : Application)
    (tx : Persist) (evs : List Event) : Option Persist × List Event :=
  let evs2 := evs ++ [Event.nodeDeleteAppVersion ns app.name]
  if f.nodeDeleteFail then (none, evs2)
  else
    let evs3 := evs2 ++ [Event.indexRefresh ns app.name []]
    if f.indexRefreshDeleteFail then (none, evs3)
    else (some { tx with index := upsertEntry tx.index (ns, app.name) [] }, evs3)

/-- `UpdateNodeAndAppIndex(tx, namespace, app)`: ask the node collaborator
which nodes match the application, then refresh the index to that node set. -/
def UpdateNodeAndAppIndex (env : Env) (f : Faults) (ns : String)
    (app : Application) (tx : Persist) (evs : List Event) :
    Option Persist × List Event :=
  let evs2 := evs ++ [Event.nodeUpdateAppVersion ns app.name]
  if f.nodeUpdateFail then (none, evs2)
  else
    let nodes := env.selectNodes app.selector
    let evs3 := evs2 ++ [Event.indexRefresh ns app.name nodes]
    if f.indexRefreshUpdateFail then (none, evs3)
    else (some { tx with index := upsertEntry tx.index (ns, app.name) nodes }, evs3)

/-- `GetApp(ns, name, version)`: read the Application (no transaction); when
it is in Wait state, best-effort overlay of the Cron record's selector.
`none` models the error return.  The version argument selects the same
record in this model (the store is keyed by namespace and name). -/
def GetApp (f : Faults) (st : Store) (ns name _version : String) :
    Option Application :=
  match lookupEntry st.persist.apps (ns, name) with
  | none => none
  | some app =>
    if app.cronStatus = CronStatus.wait then
      match (if f.cronGetFail then none else findCron st.crons name ns) with
      | some cronApp => some { app with selector := cronApp.selector }
      | none => some app
    else some app

/-- Error return inside the transaction: the deferred handler rolls the
transaction back, so the live store (crons possibly already mutated) is what
remains observable. -/
def rollbackErr (st : Store) (crons : List Cron) (evs : List Event) : RunResult :=
  ⟨Outcome.err, { st with crons := crons }, evs ++ [Event.rollbackTx]⟩

/-- Tail of `CreateApp` after the Cron step: `a.app.CreateWithBase`, then
`a.UpdateNodeAndAppIndex`, then the deferred commit.  `app1` is the
application after the Wait-state selector clearing; the store model keeps
`app1` itself (the `baseApp` merge happens inside the collaborator). -/
def createAppPersist (env : Env) (f : Faults) (st : Store) (ns : String)
    (app1 : Application) (crons1 : List Cron) (tx1 : Persist)
    (evs : List Event) : RunResult :=
  let evs3 := evs ++ [Event.appCreate ns app1.name]
  if f.appCreateFail then rollbackErr st crons1 evs3
  else
    let tx2 := { tx1 with apps := upsertEntry tx1.apps (ns, app1.name) app1 }
    match UpdateNodeAndAppIndex env f ns app1 tx2 evs3 with
    | (none, evs4) => rollbackErr st crons1 evs4
    | (some tx3, evs4) =>
      ⟨Outcome.ok (some app1), ⟨tx3, crons1, st.diags⟩, evs4 ++ [Event.commitTx]⟩

/-- `CreateApp(ns, baseApp, app, configs)`.  The `tx` buffer carries the
application / configuration / index stores; Cron calls hit `st.crons`
directly (the source passes them no `tx`). -/
def CreateApp (env : Env) (f : Faults) (st : Store) (ns : String)
    (_baseApp : Option Application) (app : Application)
    (configs : List Configuration) : RunResult :=
  match updateGenConfigsOfFunctionApp f ns configs st.persist [Event.beginTx] with
  | (none, evs) => rollbackErr st st.crons evs
  | (some tx1, evs) =>
    if app.cronStatus = CronStatus.wait then
      let evs2 := evs ++ [Event.cronCreate app.name app.nameSpace]
      if f.cronCreateFail then rollbackErr st st.crons evs2
      else
        createAppPersist env f st ns { app with selector := "" }
          (createCron st.crons ⟨app.name, app.nameSpace, app.selector, app.cronTime⟩)
          tx1 evs2
    else createAppPersist env f st ns app st.crons tx1 evs

/-- Last part of `UpdateApp`: `a.UpdateNodeAndAppIndex`, the generated-config
reconciliation, then the deferred commit. -/
def updateAppFinish (env : Env) (f : Faults) (st : Store) (ns : String)
    (old app1 : Application) (configs : List Configuration)
    (crons2 : List Cron) (tx3 : Persist) (evs5 : List Event) : RunResult :=
  match UpdateNodeAndAppIndex env f ns app1 tx3 evs5 with
  | (none, evs6) => rollbackErr st crons2 evs6
  | (some tx4, evs6) =>
    match cleanGenConfigsOfFunctionApp f configs old tx4 st.diags evs6 with
    | (tx5, diags1, evs7) =>
      ⟨Outcome.ok (some app1), ⟨tx5, crons2, diags1⟩, evs7 ++ [Event.commitTx]⟩

/-- Tail of `UpdateApp` after `a.app.Update` succeeded: the selector-change
check (`oldApp != nil && oldApp.Selector != app.Selector`, with the nil case
already excluded by the earlier dereference), then the finishing sequence. -/
def updateAppIndexes (env : Env) (f : Faults) (st : Store) (ns : String)
    (old app1 : Application) (configs : List Configuration)
    (crons2 : List Cron) (tx2 : Persist) (evs : List Event) : RunResult :=
  if old.selector ≠ app1.selector then
    match DeleteNodeAndAppIndex f ns old tx2 evs with
    | (none, evs5) => rollbackErr st crons2 evs5
    | (some tx3, evs5) => updateAppFinish env f st ns old app1 configs crons2 tx3 evs5
  else updateAppFinish env f st ns old app1 configs crons2 tx2 evs

/-- Middle of `UpdateApp`, from the `oldApp.CronStatus` dereference: the
Wait-to-NotSet Cron deletion (keyed by `app.Name` and the `ns` argument),
then `a.app.Update` through the `tx` handle. -/
def updateAppWithOld (env : Env) (f : Faults) (st : Store) (ns : String)
    (oldApp : Option Application) (app1 : Application)
    (configs : List Configuration) (crons1 : List Cron) (tx1 : Persist)
    (evs : List Event) : RunResult :=
  match oldApp with
  | none =>
    ⟨Outcome.panicked PanicSite.oldAppCronStatusCheck,
     { st with crons := crons1 }, evs ++ [Event.rollbackTx]⟩
  | some old =>
    let cronDelStep : Option (List Cron) × List Event :=
      if old.cronStatus = CronStatus.wait ∧ app1.cronStatus = CronStatus.notSet then
        let evs3 := evs ++ [Event.cronDelete app1.name ns]
        if f.cronDeleteFail then (none, evs3)
        else (some (deleteCronRec crons1 app1.name ns), evs3)
      else (some crons1, evs)
    match cronDelStep with
    | (none, evs3) => rollbackErr st crons1 evs3
    | (some crons2, evs3) =>
      let evs4 := evs3 ++ [Event.appUpdate ns app1.name]
      if f.appUpdateFail then rollbackErr st crons2 evs4
      else
        updateAppIndexes env f st ns old app1 configs crons2
          { tx1 with apps := upsertEntry tx1.apps (ns, app1.name) app1 } evs4

/-- `UpdateApp(ns, oldApp, app, configs)`.  Source order: config upserts,
Cron upsert when the new state is Wait (then clear the selector), the
Wait-to-NotSet check (which dereferences `oldApp` unconditionally), the
application update, index maintenance, and the generated-config
reconciliation — all before the deferred commit. -/
def UpdateApp (env : Env) (f : Faults) (st : Store) (ns : String)
    (oldApp : Option Application) (app : Application)
    (configs : List Configuration) : RunResult :=
  match updateGenConfigsOfFunctionApp f ns configs st.persist [Event.beginTx] with
  | (none, evs) => rollbackErr st st.crons evs
  | (some tx1, evs) =>
    if app.cronStatus = CronStatus.wait then
      let evs2 := evs ++ [Event.cronUpdate app.name app.nameSpace]
      if f.cronUpdateFail then rollbackErr st st.crons evs2
      else
        updateAppWithOld env f st ns oldApp { app with selector := "" } configs
          (upsertCron st.crons ⟨app.name, app.nameSpace, app.selector, app.cronTime⟩)
          tx1 evs2
    else updateAppWithOld env f st ns oldApp app configs st.crons tx1 evs

/-- Tail of `DeleteApp` after the Cron step: `a.app.Delete(tx, ns, name, "")`,
index teardown for `app`, reconciliation with an empty survivor set, then
the deferred commit. -/
def deleteAppPersist (f : Faults) (st : Store) (ns name : String)
    (app : Application) (crons1 : List Cron) (evs : List Event) : RunResult :=
  let evs3 := evs ++ [Event.appDelete ns name]
  if f.appDeleteFail then rollbackErr st crons1 evs3
  else
    let tx1 := { st.persist with apps := deleteEntry st.persist.apps (ns, name) }
    match DeleteNodeAndAppIndex f ns app tx1 evs3 with
    | (none, evs4) => rollbackErr st crons1 evs4
    | (some tx2, evs4) =>
      match cleanGenConfigsOfFunctionApp f [] app tx2 st.diags evs4 with
      | (tx3, diags1, evs5) =>
        ⟨Outcome.ok none, ⟨tx3, crons1, diags1⟩, evs5 ++ [Event.commitTx]⟩

/-- The application as it is persisted by `CreateApp`/`UpdateApp`: when the
cron status is Wait the selector has been cleared (it lives on the Cron
record); otherwise the application is stored as supplied.  This is the
"effective post-processing" shape of the application. -/
def effApp (app : Application) : Application :=
  if app.cronStatus = CronStatus.wait then { app with selector := "" } else app

/-- `DeleteApp(ns, name, app)`.  Cron deletion (keyed by the `name` and `ns`
arguments) when the app is in Wait state, then the transactional tail. -/
def DeleteApp (f : Faults) (st : Store) (ns name : String)
    (app : Application) : RunResult :=
  let evs := [Event.beginTx]
  if app.cronStatus = CronStatus.wait then
    let evs2 := evs ++ [Event.cronDelete name ns]
    if f.cronDeleteFail then rollbackErr st st.crons evs2
    else deleteAppPersist f st ns name app (deleteCronRec st.crons name ns) evs2
  else deleteAppPersist f st ns name app st.crons evs

/-! ### Helper lemmas about the store primitives -/

theorem find?_filter_of_imp {α : Type} (l : List α) (p q : α → Bool)
    (h : ∀ x, p x = true → q x = true) : (l.filter q).find? p = l.find? p := by
  induction l with
  | nil => rfl
  | cons a tl ih =>
    cases hq : q a with
    | true =>
      cases hp : p a with
      | true => simp [List.filter_cons, hq, hp, List.find?_cons_of_pos]
      | false =>
        rw [List.filter_cons, if_pos hq, List.find?_cons_of_neg _ (by simp [hp]),
          List.find?_cons_of_neg _ (by simp [hp]), ih]
    | false =>
      have hp : p a = false := by
        cases hpa : p a with
        | false => rfl
        | true => rw [h a hpa] at hq; cases hq
      rw [List.filter_cons, if_neg (by simp [hq]), ih,
        List.find?_cons_of_neg _ (by simp [hp])]

theorem lookupEntry_upsert_self {α : Type} (l : List ((String × String) × α))
    (k : String × String) (v : α) : lookupEntry (upsertEntry l k v) k = some v := by
  simp [lookupEntry, upsertEntry, List.find?_cons_of_pos]

theorem lookupEntry_upsert_ne {α : Type} (l : List ((String × String) × α))
    (k k' : String × String) (v : α) (h : k' ≠ k) :
    lookupEntry (upsertEntry l k v) k' = lookupEntry l k' := by
  unfold lookupEntry upsertEntry
  rw [List.find?_cons_of_neg _ (by simpa using h.symm), find?_filter_of_imp]
  intro x hx
  simp only [decide_eq_true_eq] at hx
  simpa [hx] using h

theorem lookupEntry_delete_self {α : Type} (l : List ((String × String) × α))
    (k : String × String) : lookupEntry (deleteEntry l k) k = none := by
  unfold lookupEntry deleteEntry
  have hfind : List.find? (fun kv => decide (kv.1 = k))
      (l.filter (fun kv => !decide (kv.1 = k))) = none := by
    rw [List.find?_eq_none]
    intro x hx
    rw [List.mem_filter] at hx
    simpa using hx.2
  rw [hfind]
  rfl

theorem lookupEntry_delete_ne {α : Type} (l : List ((String × String) × α))
    (k k' : String × String) (h : k' ≠ k) :
    lookupEntry (deleteEntry l k) k' = lookupEntry l k' := by
  unfold lookupEntry deleteEntry
  rw [find?_filter_of_imp]
  intro x hx
  simp only [decide_eq_true_eq] at hx
  simpa [hx] using h

theorem mem_upsertEntry {α : Type} {l : List ((String × String) × α)}
    {k : String × String} {v : α} {kv : (String × String) × α} :
    kv ∈ upsertEntry l k v ↔ kv = (k, v) ∨ (kv ∈ l ∧ kv.1 ≠ k) := by
  simp [upsertEntry, List.mem_filter]

theorem mem_deleteEntry {α : Type} {l : List ((String × String) × α)}
    {k : String × String} {kv : (String × String) × α} :
    kv ∈ deleteEntry l k ↔ kv ∈ l ∧ kv.1 ≠ k := by
  simp [deleteEntry, List.mem_filter]

theorem hasCron_iff {cs : List Cron} {n s : String} :
    hasCron cs n s = true ↔ ∃ c ∈ cs, c.name = n ∧ c.nameSpace = s := by
  simp [hasCron]

theorem mem_upsertCron {cs : List Cron} {c c0 : Cron} :
    c0 ∈ upsertCron cs c ↔
      c0 = c ∨ (c0 ∈ cs ∧ ¬(c0.name = c.name ∧ c0.nameSpace = c.nameSpace)) := by
  simp [upsertCron, List.mem_filter]
  tauto

theorem mem_deleteCronRec {cs : List Cron} {n s : String} {c0 : Cron} :
    c0 ∈ deleteCronRec cs n s ↔ c0 ∈ cs ∧ ¬(c0.name = n ∧ c0.nameSpace = s) := by
  simp [deleteCronRec, List.mem_filter]
  tauto

theorem mem_createCron {cs : List Cron} {c c0 : Cron} :
    c0 ∈ createCron cs c ↔ c0 = c ∨ c0 ∈ cs := by
  simp [createCron]

theorem findCron_upsertCron_self (cs : List Cron) (c : Cron) :
    findCron (upsertCron cs c) c.name c.nameSpace = some c := by
  simp [findCron, upsertCron, List.find?_cons_of_pos]

theorem findCron_createCron_self (cs : List Cron) (c : Cron) :
    findCron (createCron cs c) c.name c.nameSpace = some c := by
  simp [findCron, createCron, List.find?_cons_of_pos]

/-! ### Characterization of the reconciliation and upsert loops -/

/-- Whether the reconciliation over `vols` (with survivor set `s`, fault
oracle `f`) ends up deleting the Configuration named `n`: some volume
references `n`, `n` passes the deletion guard, and that deletion is not
forced to fail. -/
def deletedBy (f : Faults) (s : List String) (vols : List Volume) (n : String) :
    Bool :=
  vols.any (fun v =>
    match v.config with
    | none => false
    | some vc =>
      decide (vc.name = n) && genConfigCandidate s vc.name && !f.configDeleteFail vc.name)

theorem cleanGen_apps (f : Faults) (s : List String) (ns : String) :
    ∀ (vols : List Volume) (tx : Persist) (d : List Diag) (e : List Event),
      (cleanGenVolumes f s ns vols tx d e).1.apps = tx.apps := by
  intro vols
  induction vols with
  | nil => intro tx d e; rfl
  | cons v rest ih =>
    intro tx d e
    cases hv : v.config with
    | none => simp [cleanGenVolumes, hv, ih]
    | some vc =>
      by_cases hc : genConfigCandidate s vc.name = true
      · by_cases hf : f.configDeleteFail vc.name = true
        · simp [cleanGenVolumes, hv, hc, hf, ih]
        · simp [cleanGenVolumes, hv, hc, hf, ih]
      · simp [cleanGenVolumes, hv, hc, ih]

theorem cleanGen_index (f : Faults) (s : List String) (ns : String) :
    ∀ (vols : List Volume) (tx : Persist) (d : List Diag) (e : List Event),
      (cleanGenVolumes f s ns vols tx d e).1.index = tx.index := by
  intro vols
  induction vols with
  | nil => intro tx d e; rfl
  | cons v rest ih =>
    intro tx d e
    cases hv : v.config with
    | none => simp [cleanGenVolumes, hv, ih]
    | some vc =>
      by_cases hc : genConfigCandidate s vc.name = true
      · by_cases hf : f.configDeleteFail vc.name = true
        · simp [cleanGenVolumes, hv, hc, hf, ih]
        · simp [cleanGenVolumes, hv, hc, hf, ih]
      · simp [cleanGenVolumes, hv, hc, ih]

theorem cleanGen_configs_lookup (f : Faults) (s : List String) (ns : String) :
    ∀ (vols : List Volume) (tx : Persist) (d : List Diag) (e : List Event)
      (k : String × String),
      lookupEntry (cleanGenVolumes f s ns vols tx d e).1.configs k =
        if k.1 = ns ∧ deletedBy f s vols k.2 = true then none
        else lookupEntry tx.configs k := by
  intro vols
  induction vols with
  | nil =>
    intro tx d e k
    simp [cleanGenVolumes, deletedBy]
  | cons v rest ih =>
    intro tx d e k
    cases hv : v.config with
    | none =>
      have hstep : deletedBy f s (v :: rest) k.2 = deletedBy f s rest k.2 := by
        simp [deletedBy, hv]
      rw [cleanGenVolumes, hv, ih, hstep]
    | some vc =>
      by_cases hc : genConfigCandidate s vc.name = true
      · by_cases hf : f.configDeleteFail vc.name = true
        · have hstep : deletedBy f s (v :: rest) k.2 = deletedBy f s rest k.2 := by
            simp only [deletedBy, List.any_cons, hv]
            simp [hf]
          simp only [cleanGenVolumes, hv]
          rw [if_pos hc, if_pos hf, ih, hstep]
        · have hf' : f.configDeleteFail vc.name = false := by simpa using hf
          have hstep : deletedBy f s (v :: rest) k.2
              = (decide (vc.name = k.2) || deletedBy f s rest k.2) := by
            simp only [deletedBy, List.any_cons, hv]
            simp [hc, hf']
          simp only [cleanGenVolumes, hv]
          rw [if_pos hc, if_neg (by simp [hf']), ih, hstep]
          by_cases hk : k = (ns, vc.name)
          · subst hk
            by_cases hdel : deletedBy f s rest (ns, vc.name).2 = true
            · simp [hdel]
            · simp [hdel, lookupEntry_delete_self]
          · rw [lookupEntry_delete_ne _ _ _ hk]
            by_cases hk1 : k.1 = ns
            · have hk2 : ¬(vc.name = k.2) := by
                intro hh
                apply hk
                cases k
                simp_all
              simp [hk1, hk2]
            · simp [hk1]
      · have hc' : genConfigCandidate s vc.name = false := by simpa using hc
        have hstep : deletedBy f s (v :: rest) k.2 = deletedBy f s rest k.2 := by
          simp only [deletedBy, List.any_cons, hv]
          simp [hc']
        simp only [cleanGenVolumes, hv]
        rw [if_neg (by simp [hc']), ih, hstep]

theorem cleanGen_diags_mono (f : Faults) (s : List String) (ns : String) :
    ∀ (vols : List Volume) (tx : Persist) (d : List Diag) (e : List Event)
      (x : Diag), x ∈ d → x ∈ (cleanGenVolumes f s ns vols tx d e).2.1 := by
  intro vols
  induction vols with
  | nil => intro tx d e x hx; exact hx
  | cons v rest ih =>
    intro tx d e x hx
    cases hv : v.config with
    | none =>
      simp only [cleanGenVolumes, hv]
      exact ih tx d e x hx
    | some vc =>
      by_cases hc : genConfigCandidate s vc.name = true
      · by_cases hf : f.configDeleteFail vc.name = true
        · simp only [cleanGenVolumes, hv, if_pos hc, if_pos hf]
          exact ih _ _ _ x (by simp [hx])
        · simp only [cleanGenVolumes, hv, if_pos hc, if_neg (by simp [hf] : ¬f.configDeleteFail vc.name = true)]
          exact ih _ _ _ x hx
      · simp only [cleanGenVolumes, hv, if_neg (by simp [hc] : ¬genConfigCandidate s vc.name = true)]
        exact ih _ _ _ x hx

theorem cleanGen_diag_rec (f : Faults) (s : List String) (ns : String) :
    ∀ (vols : List Volume) (tx : Persist) (d : List Diag) (e : List Event)
      (v : Volume) (vc : VolumeConfig), v ∈ vols → v.config = some vc →
      genConfigCandidate s vc.name = true → f.configDeleteFail vc.name = true →
      (⟨configEntity, ns, vc.name⟩ : Diag) ∈ (cleanGenVolumes f s ns vols tx d e).2.1 := by
  intro vols
  induction vols with
  | nil => intro tx d e v vc hv; cases hv
  | cons v0 rest ih =>
    intro tx d e v vc hv hvc hc hf
    rcases List.mem_cons.mp hv with heq | hmem
    · subst heq
      simp only [cleanGenVolumes, hvc, if_pos hc, if_pos hf]
      exact cleanGen_diags_mono f s ns rest _ _ _ _ (by simp)
    · cases hv0 : v0.config with
      | none =>
        simp only [cleanGenVolumes, hv0]
        exact ih _ _ _ v vc hmem hvc hc hf
      | some vc0 =>
        by_cases hc0 : genConfigCandidate s vc0.name = true
        · by_cases hf0 : f.configDeleteFail vc0.name = true
          · simp only [cleanGenVolumes, hv0, if_pos hc0, if_pos hf0]
            exact ih _ _ _ v vc hmem hvc hc hf
          · simp only [cleanGenVolumes, hv0, if_pos hc0,
              if_neg (by simp [hf0] : ¬f.configDeleteFail vc0.name = true)]
            exact ih _ _ _ v vc hmem hvc hc hf
        · simp only [cleanGenVolumes, hv0,
            if_neg (by simp [hc0] : ¬genConfigCandidate s vc0.name = true)]
          exact ih _ _ _ v vc hmem hvc hc hf

theorem cleanGen_events_mono (f : Faults) (s : List String) (ns : String) :
    ∀ (vols : List Volume) (tx : Persist) (d : List Diag) (e : List Event)
      (x : Event), x ∈ e → x ∈ (cleanGenVolumes f s ns vols tx d e).2.2 := by
  intro vols
  induction vols with
  | nil => intro tx d e x hx; exact hx
  | cons v rest ih =>
    intro tx d e x hx
    cases hv : v.config with
    | none =>
      simp only [cleanGenVolumes, hv]
      exact ih tx d e x hx
    | some vc =>
      by_cases hc : genConfigCandidate s vc.name = true
      · by_cases hf : f.configDeleteFail vc.name = true
        · simp only [cleanGenVolumes, hv, if_pos hc, if_pos hf]
          exact ih _ _ _ x (by simp [hx])
        · simp only [cleanGenVolumes, hv, if_pos hc,
            if_neg (by simp [hf] : ¬f.configDeleteFail vc.name = true)]
          exact ih _ _ _ x (by simp [hx])
      · simp only [cleanGenVolumes, hv,
          if_neg (by simp [hc] : ¬genConfigCandidate s vc.name = true)]
        exact ih _ _ _ x hx

theorem cleanGen_events_shape (f : Faults) (s : List String) (ns : String) :
    ∀ (vols : List Volume) (tx : Persist) (d : List Diag) (e : List Event)
      (x : Event), x ∈ (cleanGenVolumes f s ns vols tx d e).2.2 →
      x ∈ e ∨ ∃ n, x = Event.configDelete ns n true := by
  intro vols
  induction vols with
  | nil => intro tx d e x hx; exact Or.inl hx
  | cons v rest ih =>
    intro tx d e x hx
    cases hv : v.config with
    | none =>
      simp only [cleanGenVolumes, hv] at hx
      exact ih tx d e x hx
    | some vc =>
      by_cases hc : genConfigCandidate s vc.name = true
      · by_cases hf : f.configDeleteFail vc.name = true
        · simp only [cleanGenVolumes, hv, if_pos hc, if_pos hf] at hx
          rcases ih _ _ _ x hx with hin | hnew
          · rcases List.mem_append.mp hin with hin2 | hin2
            · exact Or.inl hin2
            · exact Or.inr ⟨vc.name, by simpa using hin2⟩
          · exact Or.inr hnew
        · simp only [cleanGenVolumes, hv, if_pos hc,
            if_neg (by simp [hf] : ¬f.configDeleteFail vc.name = true)] at hx
          rcases ih _ _ _ x hx with hin | hnew
          · rcases List.mem_append.mp hin with hin2 | hin2
            · exact Or.inl hin2
            · exact Or.inr ⟨vc.name, by simpa using hin2⟩
          · exact Or.inr hnew
      · simp only [cleanGenVolumes, hv,
          if_neg (by simp [hc] : ¬genConfigCandidate s vc.name = true)] at hx
        exact ih _ _ _ x hx

theorem updateGen_events_mono (f : Faults) (ns : String) :
    ∀ (cfgs : List Configuration) (tx : Persist) (e : List Event) (x : Event),
      x ∈ e → x ∈ (updateGenConfigsOfFunctionApp f ns cfgs tx e).2 := by
  intro cfgs
  induction cfgs with
  | nil => intro tx e x hx; exact hx
  | cons cfg rest ih =>
    intro tx e x hx
    by_cases hf : f.configUpsertFail cfg.name = true
    · simp only [updateGenConfigsOfFunctionApp, if_pos hf]
      simp [hx]
    · simp only [updateGenConfigsOfFunctionApp,
        if_neg (by simp [hf] : ¬f.configUpsertFail cfg.name = true)]
      exact ih _ _ x (by simp [hx])

theorem updateGen_events_shape (f : Faults) (ns : String) :
    ∀ (cfgs : List Configuration) (tx : Persist) (e : List Event) (x : Event),
      x ∈ (updateGenConfigsOfFunctionApp f ns cfgs tx e).2 →
      x ∈ e ∨ ∃ n, x = Event.configUpsert ns n := by
  intro cfgs
  induction cfgs with
  | nil => intro tx e x hx; exact Or.inl hx
  | cons cfg rest ih =>
    intro tx e x hx
    by_cases hf : f.configUpsertFail cfg.name = true
    · simp only [updateGenConfigsOfFunctionApp, if_pos hf] at hx
      rcases List.mem_append.mp hx with hin | hin
      · exact Or.inl hin
      · exact Or.inr ⟨cfg.name, by simpa using hin⟩
    · simp only [updateGenConfigsOfFunctionApp,
        if_neg (by simp [hf] : ¬f.configUpsertFail cfg.name = true)] at hx
      rcases ih _ _ x hx with hin | hnew
      · rcases List.mem_append.mp hin with hin2 | hin2
        · exact Or.inl hin2
        · exact Or.inr ⟨cfg.name, by simpa using hin2⟩
      · exact Or.inr hnew

theorem updateGen_persist (f : Faults) (ns : String) :
    ∀ (cfgs : List Configuration) (tx : Persist) (e : List Event)
      (tx1 : Persist) (e1 : List Event),
      updateGenConfigsOfFunctionApp f ns cfgs tx e = (some tx1, e1) →
      tx1.apps = tx.apps ∧ tx1.index = tx.index := by
  intro cfgs
  induction cfgs with
  | nil =>
    intro tx e tx1 e1 h
    simp only [updateGenConfigsOfFunctionApp] at h
    cases h
    exact ⟨rfl, rfl⟩
  | cons cfg rest ih =>
    intro tx e tx1 e1 h
    by_cases hf : f.configUpsertFail cfg.name = true
    · simp only [updateGenConfigsOfFunctionApp, if_pos hf] at h
      cases h
    · simp only [updateGenConfigsOfFunctionApp,
        if_neg (by simp [hf] : ¬f.configUpsertFail cfg.name = true)] at h
      simpa using ih _ _ _ _ h

theorem updateGen_noFail (f : Faults) (ns : String)
    (h : ∀ n, f.configUpsertFail n = false) :
    ∀ (cfgs : List Configuration) (tx : Persist) (e : List Event),
      ∃ tx1 e1, updateGenConfigsOfFunctionApp f ns cfgs tx e = (some tx1, e1) := by
  intro cfgs
  induction cfgs with
  | nil => intro tx e; exact ⟨tx, e, rfl⟩
  | cons cfg rest ih =>
    intro tx e
    simp only [updateGenConfigsOfFunctionApp, h cfg.name, Bool.false_eq_true, if_false]
    exact ih _ _

/-! ### Success-shape lemmas for the facade steps -/

theorem updateAppFinish_ok_spec (env : Env) (f : Faults) (st : Store) (ns : String)
    (old app1 : Application) (configs : List Configuration) (crons2 : List Cron)
    (tx3 : Persist) (evs5 : List Event) (x : Option Application) (r : RunResult)
    (hr : r = updateAppFinish env f st ns old app1 configs crons2 tx3 evs5)
    (h : r.outcome = Outcome.ok x) :
    x = some app1 ∧
    r.store.crons = crons2 ∧
    r.store.persist.apps = tx3.apps ∧
    lookupEntry r.store.persist.index (ns, app1.name)
      = some (env.selectNodes app1.selector) ∧
    (∀ k, lookupEntry r.store.persist.configs k =
      if k.1 = old.nameSpace ∧ deletedBy f (survivorSet configs) old.volumes k.2 = true
      then none else lookupEntry tx3.configs k) ∧
    r.events.getLast? = some Event.commitTx ∧
    (∀ x0, x0 ∈ evs5 → x0 ∈ r.events) ∧
    (∀ v vc, v ∈ old.volumes → v.config = some vc →
      genConfigCandidate (survivorSet configs) vc.name = true →
      f.configDeleteFail vc.name = true →
      (⟨configEntity, old.nameSpace, vc.name⟩ : Diag) ∈ r.store.diags) ∧
    (∀ e0, e0 ∈ r.events → e0 ∈ evs5 ∨ e0 = Event.commitTx ∨
      (∃ n, e0 = Event.configDelete old.nameSpace n true) ∨
      e0 = Event.nodeUpdateAppVersion ns app1.name ∨
      e0 = Event.indexRefresh ns app1.name (env.selectNodes app1.selector)) := by
  subst hr
  by_cases hnu : f.nodeUpdateFail = true
  · simp [updateAppFinish, UpdateNodeAndAppIndex, hnu, rollbackErr] at h
  by_cases hiru : f.indexRefreshUpdateFail = true
  · simp [updateAppFinish, UpdateNodeAndAppIndex, hnu, hiru, rollbackErr] at h
  have hnu' : f.nodeUpdateFail = false := by simpa using hnu
  have hiru' : f.indexRefreshUpdateFail = false := by simpa using hiru
  rcases hcg : cleanGenVolumes f (survivorSet configs) old.nameSpace old.volumes
      { tx3 with index := upsertEntry tx3.index (ns, app1.name) (env.selectNodes app1.selector) }
      st.diags ((evs5 ++ [Event.nodeUpdateAppVersion ns app1.name])
        ++ [Event.indexRefresh ns app1.name (env.selectNodes app1.selector)])
      with ⟨tx5, diags1, evs7⟩
  have hdef : updateAppFinish env f st ns old app1 configs crons2 tx3 evs5
      = ⟨Outcome.ok (some app1), ⟨tx5, crons2, diags1⟩, evs7 ++ [Event.commitTx]⟩ := by
    simp only [updateAppFinish, UpdateNodeAndAppIndex, hnu', hiru', Bool.false_eq_true,
      if_false, cleanGenConfigsOfFunctionApp, hcg]
  rw [hdef] at h ⊢
  have hx : x = some app1 := by
    simpa using h.symm
  have happs := cleanGen_apps f (survivorSet configs) old.nameSpace old.volumes
      { tx3 with index := upsertEntry tx3.index (ns, app1.name) (env.selectNodes app1.selector) }
      st.diags ((evs5 ++ [Event.nodeUpdateAppVersion ns app1.name])
        ++ [Event.indexRefresh ns app1.name (env.selectNodes app1.selector)])
  rw [hcg] at happs
  have hidx := cleanGen_index f (survivorSet configs) old.nameSpace old.volumes
      { tx3 with index := upsertEntry tx3.index (ns, app1.name) (env.selectNodes app1.selector) }
      st.diags ((evs5 ++ [Event.nodeUpdateAppVersion ns app1.name])
        ++ [Event.indexRefresh ns app1.name (env.selectNodes app1.selector)])
  rw [hcg] at hidx
  refine ⟨hx, rfl, by simpa using happs, ?_, ?_, ?_, ?_, ?_, ?_⟩
  · show lookupEntry tx5.index (ns, app1.name) = some (env.selectNodes app1.selector)
    rw [hidx]
    exact lookupEntry_upsert_self _ _ _
  · intro k
    have hcfg := cleanGen_configs_lookup f (survivorSet configs) old.nameSpace old.volumes
        { tx3 with index := upsertEntry tx3.index (ns, app1.name) (env.selectNodes app1.selector) }
        st.diags ((evs5 ++ [Event.nodeUpdateAppVersion ns app1.name])
          ++ [Event.indexRefresh ns app1.name (env.selectNodes app1.selector)]) k
    rw [hcg] at hcfg
    exact hcfg
  · show (evs7 ++ [Event.commitTx]).getLast? = some Event.commitTx
    simp
  · intro x0 hx0
    have hm := cleanGen_events_mono f (survivorSet configs) old.nameSpace old.volumes
        { tx3 with index := upsertEntry tx3.index (ns, app1.name) (env.selectNodes app1.selector) }
        st.diags ((evs5 ++ [Event.nodeUpdateAppVersion ns app1.name])
          ++ [Event.indexRefresh ns app1.name (env.selectNodes app1.selector)]) x0
        (by simp [hx0])
    rw [hcg] at hm
    simp [hm]
  · intro v vc hv hvc hc hf
    have hd := cleanGen_diag_rec f (survivorSet configs) old.nameSpace old.volumes
        { tx3 with index := upsertEntry tx3.index (ns, app1.name) (env.selectNodes app1.selector) }
        st.diags ((evs5 ++ [Event.nodeUpdateAppVersion ns app1.name])
          ++ [Event.indexRefresh ns app1.name (env.selectNodes app1.selector)])
        v vc hv hvc hc hf
    rw [hcg] at hd
    exact hd
  · intro e0 he0
    rcases List.mem_append.mp he0 with he1 | he1
    · have hs := cleanGen_events_shape f (survivorSet configs) old.nameSpace old.volumes
          { tx3 with index := upsertEntry tx3.index (ns, app1.name) (env.selectNodes app1.selector) }
          st.diags ((evs5 ++ [Event.nodeUpdateAppVersion ns app1.name])
            ++ [Event.indexRefresh ns app1.name (env.selectNodes app1.selector)]) e0
          (by rw [hcg]; exact he1)
      rcases hs with hin | ⟨n, hn⟩
      · rcases List.mem_append.mp hin with hin2 | hin2
        · rcases List.mem_append.mp hin2 with hin3 | hin3
          · exact Or.inl hin3
          · exact Or.inr (Or.inr (Or.inr (Or.inl (by simpa using hin3))))
        · exact Or.inr (Or.inr (Or.inr (Or.inr (by simpa using hin2))))
      · exact Or.inr (Or.inr (Or.inl ⟨n, hn⟩))
    · exact Or.inr (Or.inl (by simpa using he1))

theorem updateAppIndexes_ok_spec (env : Env) (f : Faults) (st : Store) (ns : String)
    (old app1 : Application) (configs : List Configuration) (crons2 : List Cron)
    (tx2 : Persist) (evs : List Event) (x : Option Application) (r : RunResult)
    (hr : r = updateAppIndexes env f st ns old app1 configs crons2 tx2 evs)
    (h : r.outcome = Outcome.ok x) :
    x = some app1 ∧
    r.store.crons = crons2 ∧
    r.store.persist.apps = tx2.apps ∧
    lookupEntry r.store.persist.index (ns, app1.name)
      = some (env.selectNodes app1.selector) ∧
    (∀ k, lookupEntry r.store.persist.configs k =
      if k.1 = old.nameSpace ∧ deletedBy f (survivorSet configs) old.volumes k.2 = true
      then none else lookupEntry tx2.configs k) ∧
    r.events.getLast? = some Event.commitTx ∧
    (∀ x0, x0 ∈ evs → x0 ∈ r.events) ∧
    (∀ v vc, v ∈ old.volumes → v.config = some vc →
      genConfigCandidate (survivorSet configs) vc.name = true →
      f.configDeleteFail vc.name = true →
      (⟨configEntity, old.nameSpace, vc.name⟩ : Diag) ∈ r.store.diags) ∧
    (Event.nodeDeleteAppVersion ns old.name ∉ evs →
      ((Event.nodeDeleteAppVersion ns old.name ∈ r.events) ↔ old.selector ≠ app1.selector)) ∧
    (old.selector ≠ app1.selector → Event.indexRefresh ns old.name [] ∈ r.events) ∧
    (∀ e0, e0 ∈ r.events → e0 ∈ evs ∨ e0 = Event.commitTx ∨
      (∃ n, e0 = Event.configDelete old.nameSpace n true) ∨
      e0 = Event.nodeUpdateAppVersion ns app1.name ∨
      e0 = Event.indexRefresh ns app1.name (env.selectNodes app1.selector) ∨
      e0 = Event.nodeDeleteAppVersion ns old.name ∨
      e0 = Event.indexRefresh ns old.name []) := by
  by_cases hsel : old.selector = app1.selector
  · have hr2 : r = updateAppFinish env f st ns old app1 configs crons2 tx2 evs := by
      rw [hr, updateAppIndexes, if_neg (by simp [hsel])]
    obtain ⟨hx, hcr, hap, hix, hcf, hlast, hmono, hdg, hshape⟩ :=
      updateAppFinish_ok_spec env f st ns old app1 configs crons2 tx2 evs x r hr2 h
    refine ⟨hx, hcr, hap, hix, hcf, hlast, hmono, hdg, ?_, ?_, ?_⟩
    · intro hnin
      constructor
      · intro hmem
        rcases hshape _ hmem with h1 | h1 | ⟨n, h1⟩ | h1 | h1 <;>
          first
            | exact absurd h1 hnin
            | cases h1
      · intro hne
        exact absurd hsel hne
    · intro hne
      exact absurd hsel hne
    · intro e0 he0
      rcases hshape e0 he0 with h1 | h1 | h1 | h1 | h1
      · exact Or.inl h1
      · exact Or.inr (Or.inl h1)
      · exact Or.inr (Or.inr (Or.inl h1))
      · exact Or.inr (Or.inr (Or.inr (Or.inl h1)))
      · exact Or.inr (Or.inr (Or.inr (Or.inr (Or.inl h1))))
  · by_cases hnd : f.nodeDeleteFail = true
    · rw [hr, updateAppIndexes, if_pos hsel] at h
      simp [DeleteNodeAndAppIndex, hnd, rollbackErr] at h
    by_cases hird : f.indexRefreshDeleteFail = true
    · rw [hr, updateAppIndexes, if_pos hsel] at h
      simp [DeleteNodeAndAppIndex, hnd, hird, rollbackErr] at h
    have hnd' : f.nodeDeleteFail = false := by simpa using hnd
    have hird' : f.indexRefreshDeleteFail = false := by simpa using hird
    have hr2 : r = updateAppFinish env f st ns old app1 configs crons2
        { tx2 with index := upsertEntry tx2.index (ns, old.name) [] }
        ((evs ++ [Event.nodeDeleteAppVersion ns old.name])
          ++ [Event.indexRefresh ns old.name []]) := by
      rw [hr, updateAppIndexes, if_pos hsel]
      simp only [DeleteNodeAndAppIndex, hnd', hird', Bool.false_eq_true, if_false]
    obtain ⟨hx, hcr, hap, hix, hcf, hlast, hmono, hdg, hshape⟩ :=
      updateAppFinish_ok_spec env f st ns old app1 configs crons2 _ _ x r hr2 h
    refine ⟨hx, hcr, by simpa using hap, hix, ?_, hlast, ?_, hdg, ?_, ?_, ?_⟩
    · intro k
      have := hcf k
      simpa using this
    · intro x0 hx0
      exact hmono x0 (by simp [hx0])
    · intro _
      constructor
      · intro _
        exact hsel
      · intro _
        exact hmono _ (by simp)
    · intro _
      exact hmono _ (by simp)
    · intro e0 he0
      rcases hshape e0 he0 with h1 | h1 | h1 | h1 | h1
      · rcases List.mem_append.mp h1 with h2 | h2
        · rcases List.mem_append.mp h2 with h3 | h3
          · exact Or.inl h3
          · exact Or.inr (Or.inr (Or.inr (Or.inr (Or.inr (Or.inl (by simpa using h3))))))
        · exact Or.inr (Or.inr (Or.inr (Or.inr (Or.inr (Or.inr (by simpa using h2))))))
      · exact Or.inr (Or.inl h1)
      · exact Or.inr (Or.inr (Or.inl h1))
      · exact Or.inr (Or.inr (Or.inr (Or.inl h1)))
      · exact Or.inr (Or.inr (Or.inr (Or.inr (Or.inl h1))))

theorem updateAppWithOld_ok_spec (env : Env) (f : Faults) (st : Store) (ns : String)
    (old app1 : Application) (configs : List Configuration) (crons1 : List Cron)
    (tx1 : Persist) (evs : List Event) (x : Option Application) (r : RunResult)
    (hr : r = updateAppWithOld env f st ns (some old) app1 configs crons1 tx1 evs)
    (h : r.outcome = Outcome.ok x) :
    x = some app1 ∧
    r.store.crons = (if old.cronStatus = CronStatus.wait ∧ app1.cronStatus = CronStatus.notSet
      then deleteCronRec crons1 app1.name ns else crons1) ∧
    r.store.persist.apps = upsertEntry tx1.apps (ns, app1.name) app1 ∧
    lookupEntry r.store.persist.index (ns, app1.name)
      = some (env.selectNodes app1.selector) ∧
    (∀ k, lookupEntry r.store.persist.configs k =
      if k.1 = old.nameSpace ∧ deletedBy f (survivorSet configs) old.volumes k.2 = true
      then none else lookupEntry tx1.configs k) ∧
    r.events.getLast? = some Event.commitTx ∧
    (∀ x0, x0 ∈ evs → x0 ∈ r.events) ∧
    (∀ v vc, v ∈ old.volumes → v.config = some vc →
      genConfigCandidate (survivorSet configs) vc.name = true →
      f.configDeleteFail vc.name = true →
      (⟨configEntity, old.nameSpace, vc.name⟩ : Diag) ∈ r.store.diags) ∧
    (Event.nodeDeleteAppVersion ns old.name ∉ evs →
      ((Event.nodeDeleteAppVersion ns old.name ∈ r.events) ↔ old.selector ≠ app1.selector)) ∧
    (old.selector ≠ app1.selector → Event.indexRefresh ns old.name [] ∈ r.events) ∧
    (Event.cronDelete app1.name ns ∉ evs →
      ((Event.cronDelete app1.name ns ∈ r.events) ↔
        (old.cronStatus = CronStatus.wait ∧ app1.cronStatus = CronStatus.notSet))) ∧
    (∀ e0, e0 ∈ r.events → e0 ∈ evs ∨ e0 = Event.cronDelete app1.name ns ∨
      e0 = Event.appUpdate ns app1.name ∨ e0 = Event.commitTx ∨
      (∃ n, e0 = Event.configDelete old.nameSpace n true) ∨
      e0 = Event.nodeUpdateAppVersion ns app1.name ∨
      e0 = Event.indexRefresh ns app1.name (env.selectNodes app1.selector) ∨
      e0 = Event.nodeDeleteAppVersion ns old.name ∨
      e0 = Event.indexRefresh ns old.name []) := by
  by_cases hcond : old.cronStatus = CronStatus.wait ∧ app1.cronStatus = CronStatus.notSet
  · by_cases hcd : f.cronDeleteFail = true
    · rw [hr] at h
      simp [updateAppWithOld, if_pos hcond, hcd, rollbackErr] at h
    by_cases hau : f.appUpdateFail = true
    · rw [hr] at h
      simp [updateAppWithOld, if_pos hcond, hcd, hau, rollbackErr] at h
    have hcd' : f.cronDeleteFail = false := by simpa using hcd
    have hau' : f.appUpdateFail = false := by simpa using hau
    have hr2 : r = updateAppIndexes env f st ns old app1 configs
        (deleteCronRec crons1 app1.name ns)
        { tx1 with apps := upsertEntry tx1.apps (ns, app1.name) app1 }
        (((evs ++ [Event.cronDelete app1.name ns]))
          ++ [Event.appUpdate ns app1.name]) := by
      rw [hr]
      simp only [updateAppWithOld, if_pos hcond, hcd', hau', Bool.false_eq_true, if_false]
    obtain ⟨hx, hcr, hap, hix, hcf, hlast, hmono, hdg, hnodeIff, hrefr, hshape⟩ :=
      updateAppIndexes_ok_spec env f st ns old app1 configs _ _ _ x r hr2 h
    refine ⟨hx, by rw [if_pos hcond]; exact hcr, by simpa using hap, hix,
      by intro k; simpa using hcf k, hlast, ?_, hdg, ?_, hrefr, ?_, ?_⟩
    · intro x0 hx0
      exact hmono x0 (by simp [hx0])
    · intro hnin
      refine hnodeIff ?_
      intro hmem
      rcases List.mem_append.mp hmem with h2 | h2
      · rcases List.mem_append.mp h2 with h3 | h3
        · exact hnin h3
        · simp at h3
      · simp at h2
    · intro _
      constructor
      · intro _
        exact hcond
      · intro _
        exact hmono _ (by simp)
    · intro e0 he0
      rcases hshape e0 he0 with h1 | h1 | h1 | h1 | h1 | h1 | h1
      · rcases List.mem_append.mp h1 with h2 | h2
        · rcases List.mem_append.mp h2 with h3 | h3
          · exact Or.inl h3
          · exact Or.inr (Or.inl (by simpa using h3))
        · exact Or.inr (Or.inr (Or.inl (by simpa using h2)))
      · exact Or.inr (Or.inr (Or.inr (Or.inl h1)))
      · exact Or.inr (Or.inr (Or.inr (Or.inr (Or.inl h1))))
      · exact Or.inr (Or.inr (Or.inr (Or.inr (Or.inr (Or.inl h1)))))
      · exact Or.inr (Or.inr (Or.inr (Or.inr (Or.inr (Or.inr (Or.inl h1))))))
      · exact Or.inr (Or.inr (Or.inr (Or.inr (Or.inr (Or.inr (Or.inr (Or.inl h1)))))))
      · exact Or.inr (Or.inr (Or.inr (Or.inr (Or.inr (Or.inr (Or.inr (Or.inr h1)))))))
  · by_cases hau : f.appUpdateFail = true
    · rw [hr] at h
      simp [updateAppWithOld, if_neg hcond, hau, rollbackErr] at h
    have hau' : f.appUpdateFail = false := by simpa using hau
    have hr2 : r = updateAppIndexes env f st ns old app1 configs crons1
        { tx1 with apps := upsertEntry tx1.apps (ns, app1.name) app1 }
        (evs ++ [Event.appUpdate ns app1.name]) := by
      rw [hr]
      simp only [updateAppWithOld, if_neg hcond, hau', Bool.false_eq_true, if_false]
    obtain ⟨hx, hcr, hap, hix, hcf, hlast, hmono, hdg, hnodeIff, hrefr, hshape⟩ :=
      updateAppIndexes_ok_spec env f st ns old app1 configs _ _ _ x r hr2 h
    refine ⟨hx, by rw [if_neg hcond]; exact hcr, by simpa using hap, hix,
      by intro k; simpa using hcf k, hlast, ?_, hdg, ?_, hrefr, ?_, ?_⟩
    · intro x0 hx0
      exact hmono x0 (by simp [hx0])
    · intro hnin
      refine hnodeIff ?_
      intro hmem
      rcases List.mem_append.mp hmem with h2 | h2
      · exact hnin h2
      · simp at h2
    · intro hnin
      constructor
      · intro hmem
        rcases hshape _ hmem with h1 | h1 | ⟨n, h1⟩ | h1 | h1 | h1 | h1
        · rcases List.mem_append.mp h1 with h2 | h2
          · exact absurd h2 hnin
          · simp at h2
        · cases h1
        · cases h1
        · cases h1
        · cases h1
        · cases h1
        · cases h1
      · intro hc
        exact absurd hc hcond
    · intro e0 he0
      rcases hshape e0 he0 with h1 | h1 | h1 | h1 | h1 | h1 | h1
      · rcases List.mem_append.mp h1 with h2 | h2
        · exact Or.inl h2
        · exact Or.inr (Or.inr (Or.inl (by simpa using h2)))
      · exact Or.inr (Or.inr (Or.inr (Or.inl h1)))
      · exact Or.inr (Or.inr (Or.inr (Or.inr (Or.inl h1))))
      · exact Or.inr (Or.inr (Or.inr (Or.inr (Or.inr (Or.inl h1)))))
      · exact Or.inr (Or.inr (Or.inr (Or.inr (Or.inr (Or.inr (Or.inl h1))))))
      · exact Or.inr (Or.inr (Or.inr (Or.inr (Or.inr (Or.inr (Or.inr (Or.inl h1)))))))
      · exact Or.inr (Or.inr (Or.inr (Or.inr (Or.inr (Or.inr (Or.inr (Or.inr h1)))))))

/-- The Cron store after `UpdateApp`'s step 2: upserted from the supplied
application when the new state is Wait, untouched otherwise. -/
def cronsAfterUpd (app : Application) (cs : List Cron) : List Cron :=
  if app.cronStatus = CronStatus.wait
  then upsertCron cs ⟨app.name, app.nameSpace, app.selector, app.cronTime⟩ else cs

theorem effApp_name (app : Application) : (effApp app).name = app.name := by
  unfold effApp
  split <;> rfl

theorem effApp_cronStatus (app : Application) :
    (effApp app).cronStatus = app.cronStatus := by
  unfold effApp
  split <;> rfl

theorem UpdateApp_ok_spec (env : Env) (f : Faults) (st : Store) (ns : String)
    (old app : Application) (configs : List Configuration)
    (x : Option Application) (r : RunResult)
    (hr : r = UpdateApp env f st ns (some old) app configs)
    (h : r.outcome = Outcome.ok x) :
    x = some (effApp app) ∧
    r.store.crons = (if old.cronStatus = CronStatus.wait ∧ app.cronStatus = CronStatus.notSet
      then deleteCronRec (cronsAfterUpd app st.crons) app.name ns
      else cronsAfterUpd app st.crons) ∧
    r.store.persist.apps = upsertEntry st.persist.apps (ns, app.name) (effApp app) ∧
    lookupEntry r.store.persist.index (ns, app.name)
      = some (env.selectNodes (effApp app).selector) ∧
    (∀ k, k.1 = old.nameSpace →
      deletedBy f (survivorSet configs) old.volumes k.2 = true →
      lookupEntry r.store.persist.configs k = none) ∧
    r.events.getLast? = some Event.commitTx ∧
    ((Event.nodeDeleteAppVersion ns old.name ∈ r.events) ↔
      old.selector ≠ (effApp app).selector) ∧
    (old.selector ≠ (effApp app).selector →
      Event.indexRefresh ns old.name [] ∈ r.events) ∧
    ((Event.cronDelete app.name ns ∈ r.events) ↔
      (old.cronStatus = CronStatus.wait ∧ app.cronStatus = CronStatus.notSet)) ∧
    (app.cronStatus = CronStatus.wait →
      Event.cronUpdate app.name app.nameSpace ∈ r.events) ∧
    (∀ v vc, v ∈ old.volumes → v.config = some vc →
      genConfigCandidate (survivorSet configs) vc.name = true →
      f.configDeleteFail vc.name = true →
      (⟨configEntity, old.nameSpace, vc.name⟩ : Diag) ∈ r.store.diags) ∧
    (∀ ns' n b, Event.configDelete ns' n b ∈ r.events → b = true) := by
  rcases hug : updateGenConfigsOfFunctionApp f ns configs st.persist [Event.beginTx]
    with ⟨otx, evs1⟩
  cases otx with
  | none =>
    rw [hr] at h
    simp [UpdateApp, hug, rollbackErr] at h
  | some tx1 =>
    have hpp := updateGen_persist f ns configs st.persist [Event.beginTx] tx1 evs1 hug
    have hevshape : ∀ e0, e0 ∈ evs1 →
        e0 = Event.beginTx ∨ ∃ n, e0 = Event.configUpsert ns n := by
      intro e0 he0
      have hs := updateGen_events_shape f ns configs st.persist [Event.beginTx] e0
      rw [hug] at hs
      simpa using hs he0
    by_cases hw : app.cronStatus = CronStatus.wait
    · by_cases hcu : f.cronUpdateFail = true
      · rw [hr] at h
        simp [UpdateApp, hug, hw, hcu, rollbackErr] at h
      have hcu' : f.cronUpdateFail = false := by simpa using hcu
      have happ1 : effApp app = { app with selector := "" } := by
        simp [effApp, hw]
      have hr2 : r = updateAppWithOld env f st ns (some old)
          { app with selector := "" } configs
          (upsertCron st.crons ⟨app.name, app.nameSpace, app.selector, app.cronTime⟩)
          tx1 (evs1 ++ [Event.cronUpdate app.name app.nameSpace]) := by
        rw [hr]
        simp only [UpdateApp, hug, if_pos hw, hcu', Bool.false_eq_true, if_false]
      obtain ⟨hx, hcr, hap, hix, hcf, hlast, hmono, hdg, hnodeIff, hrefr, hcdIff, hshape⟩ :=
        updateAppWithOld_ok_spec env f st ns old _ configs _ tx1 _ x r hr2 h
      have hnodeNin : Event.nodeDeleteAppVersion ns old.name
          ∉ evs1 ++ [Event.cronUpdate app.name app.nameSpace] := by
        intro hmem
        rcases List.mem_append.mp hmem with h2 | h2
        · rcases hevshape _ h2 with h3 | ⟨n, h3⟩ <;> cases h3
        · simp at h2
      have hcdNin : Event.cronDelete app.name ns
          ∉ evs1 ++ [Event.cronUpdate app.name app.nameSpace] := by
        intro hmem
        rcases List.mem_append.mp hmem with h2 | h2
        · rcases hevshape _ h2 with h3 | ⟨n, h3⟩ <;> cases h3
        · simp at h2
      refine ⟨by rw [happ1]; exact hx, ?_, ?_, ?_, ?_, hlast, ?_, ?_, ?_, ?_, hdg, ?_⟩
      · have hca : cronsAfterUpd app st.crons
            = upsertCron st.crons ⟨app.name, app.nameSpace, app.selector, app.cronTime⟩ := by
          simp [cronsAfterUpd, hw]
        rw [hca]
        exact hcr
      · rw [happ1, ← hpp.1]
        exact hap
      · rw [happ1]
        exact hix
      · intro k hk1 hk2
        rw [hcf k]
        simp [hk1, hk2]
      · rw [happ1]
        exact hnodeIff hnodeNin
      · rw [happ1]
        exact hrefr
      · rw [show (Event.cronDelete app.name ns ∈ r.events
            ↔ old.cronStatus = CronStatus.wait ∧ app.cronStatus = CronStatus.notSet)
            = (Event.cronDelete ({ app with selector := "" } : Application).name ns ∈ r.events
            ↔ old.cronStatus = CronStatus.wait
              ∧ ({ app with selector := "" } : Application).cronStatus = CronStatus.notSet)
          from rfl]
        exact hcdIff hcdNin
      · intro _
        exact hmono _ (by simp)
      · intro ns' n b hb
        rcases hshape _ hb with h1 | h1 | h1 | h1 | ⟨n0, h1⟩ | h1 | h1 | h1 | h1
        · rcases List.mem_append.mp h1 with h2 | h2
          · rcases hevshape _ h2 with h3 | ⟨n1, h3⟩ <;> cases h3
          · simp at h2
        · cases h1
        · cases h1
        · cases h1
        · cases h1
          rfl
        · cases h1
        · cases h1
        · cases h1
        · cases h1
    · have happ1 : effApp app = app := by
        simp [effApp, hw]
      have hr2 : r = updateAppWithOld env f st ns (some old) app configs
          st.crons tx1 evs1 := by
        rw [hr]
        simp only [UpdateApp, hug, if_neg hw]
      obtain ⟨hx, hcr, hap, hix, hcf, hlast, hmono, hdg, hnodeIff, hrefr, hcdIff, hshape⟩ :=
        updateAppWithOld_ok_spec env f st ns old _ configs _ tx1 _ x r hr2 h
      have hnodeNin : Event.nodeDeleteAppVersion ns old.name ∉ evs1 := by
        intro hmem
        rcases hevshape _ hmem with h3 | ⟨n, h3⟩ <;> cases h3
      have hcdNin : Event.cronDelete app.name ns ∉ evs1 := by
        intro hmem
        rcases hevshape _ hmem with h3 | ⟨n, h3⟩ <;> cases h3
      refine ⟨by rw [happ1]; exact hx, ?_, ?_, ?_, ?_, hlast, ?_, ?_, ?_, ?_, hdg, ?_⟩
      · have hca : cronsAfterUpd app st.crons = st.crons := by
          simp [cronsAfterUpd, hw]
        rw [hca]
        exact hcr
      · rw [happ1, ← hpp.1]
        exact hap
      · rw [happ1]
        exact hix
      · intro k hk1 hk2
        rw [hcf k]
        simp [hk1, hk2]
      · rw [happ1]
        exact hnodeIff hnodeNin
      · rw [happ1]
        exact hrefr
      · exact hcdIff hcdNin
      · intro hww
        exact absurd hww hw
      · intro ns' n b hb
        rcases hshape _ hb with h1 | h1 | h1 | h1 | ⟨n0, h1⟩ | h1 | h1 | h1 | h1
        · rcases hevshape _ h1 with h3 | ⟨n1, h3⟩ <;> cases h3
        · cases h1
        · cases h1
        · cases h1
        · cases h1
          rfl
        · cases h1
        · cases h1
        · cases h1
        · cases h1

theorem createAppPersist_ok_spec (env : Env) (f : Faults) (st : Store) (ns : String)
    (app1 : Application) (crons1 : List Cron) (tx1 : Persist) (evs : List Event)
    (x : Option Application) (r : RunResult)
    (hr : r = createAppPersist env f st ns app1 crons1 tx1 evs)
    (h : r.outcome = Outcome.ok x) :
    x = some app1 ∧
    r.store.crons = crons1 ∧
    r.store.persist.apps = upsertEntry tx1.apps (ns, app1.name) app1 ∧
    lookupEntry r.store.persist.index (ns, app1.name)
      = some (env.selectNodes app1.selector) ∧
    r.store.persist.configs = tx1.configs ∧
    r.store.diags = st.diags ∧
    (∀ x0, x0 ∈ evs → x0 ∈ r.events) := by
  subst hr
  by_cases hac : f.appCreateFail = true
  · simp [createAppPersist, hac, rollbackErr] at h
  by_cases hnu : f.nodeUpdateFail = true
  · simp [createAppPersist, UpdateNodeAndAppIndex, hac, hnu, rollbackErr] at h
  by_cases hiru : f.indexRefreshUpdateFail = true
  · simp [createAppPersist, UpdateNodeAndAppIndex, hac, hnu, hiru, rollbackErr] at h
  have hac' : f.appCreateFail = false := by simpa using hac
  have hnu' : f.nodeUpdateFail = false := by simpa using hnu
  have hiru' : f.indexRefreshUpdateFail = false := by simpa using hiru
  have hdef : createAppPersist env f st ns app1 crons1 tx1 evs
      = ⟨Outcome.ok (some app1),
         ⟨⟨upsertEntry tx1.apps (ns, app1.name) app1, tx1.configs,
           upsertEntry tx1.index (ns, app1.name) (env.selectNodes app1.selector)⟩,
          crons1, st.diags⟩,
         (((evs ++ [Event.appCreate ns app1.name])
           ++ [Event.nodeUpdateAppVersion ns app1.name])
           ++ [Event.indexRefresh ns app1.name (env.selectNodes app1.selector)])
           ++ [Event.commitTx]⟩ := by
    simp only [createAppPersist, UpdateNodeAndAppIndex, hac', hnu', hiru',
      Bool.false_eq_true, if_false]
  rw [hdef] at h ⊢
  refine ⟨by simpa using h.symm, rfl, rfl, ?_, rfl, rfl, ?_⟩
  · exact lookupEntry_upsert_self _ _ _
  · intro x0 hx0
    simp [hx0]

theorem CreateApp_ok_spec (env : Env) (f : Faults) (st : Store) (ns : String)
    (baseApp : Option Application) (app : Application)
    (configs : List Configuration) (x : Option Application) (r : RunResult)
    (hr : r = CreateApp env f st ns baseApp app configs)
    (h : r.outcome = Outcome.ok x) :
    x = some (effApp app) ∧
    r.store.persist.apps = upsertEntry st.persist.apps (ns, app.name) (effApp app) ∧
    r.store.crons = (if app.cronStatus = CronStatus.wait
      then createCron st.crons ⟨app.name, app.nameSpace, app.selector, app.cronTime⟩
      else st.crons) ∧
    lookupEntry r.store.persist.index (ns, app.name)
      = some (env.selectNodes (effApp app).selector) ∧
    r.store.diags = st.diags ∧
    (app.cronStatus = CronStatus.wait →
      Event.cronCreate app.name app.nameSpace ∈ r.events) := by
  rcases hug : updateGenConfigsOfFunctionApp f ns configs st.persist [Event.beginTx]
    with ⟨otx, evs1⟩
  cases otx with
  | none =>
    rw [hr] at h
    simp [CreateApp, hug, rollbackErr] at h
  | some tx1 =>
    have hpp := updateGen_persist f ns configs st.persist [Event.beginTx] tx1 evs1 hug
    by_cases hw : app.cronStatus = CronStatus.wait
    · by_cases hcc : f.cronCreateFail = true
      · rw [hr] at h
        simp [CreateApp, hug, hw, hcc, rollbackErr] at h
      have hcc' : f.cronCreateFail = false := by simpa using hcc
      have happ1 : effApp app = { app with selector := "" } := by
        simp [effApp, hw]
      have hr2 : r = createAppPersist env f st ns { app with selector := "" }
          (createCron st.crons ⟨app.name, app.nameSpace, app.selector, app.cronTime⟩)
          tx1 (evs1 ++ [Event.cronCreate app.name app.nameSpace]) := by
        rw [hr]
        simp only [CreateApp, hug, if_pos hw, hcc', Bool.false_eq_true, if_false]
      obtain ⟨hx, hcr, hap, hix, _, hdia, hmono⟩ :=
        createAppPersist_ok_spec env f st ns _ _ tx1 _ x r hr2 h
      refine ⟨by rw [happ1]; exact hx, ?_, by rw [if_pos hw]; exact hcr,
        by rw [happ1]; exact hix, hdia, ?_⟩
      · rw [happ1, ← hpp.1]
        exact hap
      · intro _
        exact hmono _ (by simp)
    · have happ1 : effApp app = app := by
        simp [effApp, hw]
      have hr2 : r = createAppPersist env f st ns app st.crons tx1 evs1 := by
        rw [hr]
        simp only [CreateApp, hug, if_neg hw]
      obtain ⟨hx, hcr, hap, hix, _, hdia, hmono⟩ :=
        createAppPersist_ok_spec env f st ns _ _ tx1 _ x r hr2 h
      refine ⟨by rw [happ1]; exact hx, ?_, by rw [if_neg hw]; exact hcr,
        by rw [happ1]; exact hix, hdia, ?_⟩
      · rw [happ1, ← hpp.1]
        exact hap
      · intro hww
        exact absurd hww hw

theorem deleteAppPersist_ok_spec (f : Faults) (st : Store) (ns name : String)
    (app : Application) (crons1 : List Cron) (evs : List Event)
    (x : Option Application) (r : RunResult)
    (hr : r = deleteAppPersist f st ns name app crons1 evs)
    (h : r.outcome = Outcome.ok x) :
    x = none ∧
    r.store.crons = crons1 ∧
    r.store.persist.apps = deleteEntry st.persist.apps (ns, name) ∧
    lookupEntry r.store.persist.index (ns, app.name) = some [] ∧
    (∀ k, lookupEntry r.store.persist.configs k =
      if k.1 = app.nameSpace ∧ deletedBy f (survivorSet []) app.volumes k.2 = true
      then none else lookupEntry st.persist.configs k) ∧
    r.events.getLast? = some Event.commitTx ∧
    (∀ x0, x0 ∈ evs → x0 ∈ r.events) ∧
    (∀ v vc, v ∈ app.volumes → v.config = some vc →
      genConfigCandidate (survivorSet []) vc.name = true →
      f.configDeleteFail vc.name = true →
      (⟨configEntity, app.nameSpace, vc.name⟩ : Diag) ∈ r.store.diags) ∧
    (∀ e0, e0 ∈ r.events → e0 ∈ evs ∨ e0 = Event.commitTx ∨
      (∃ n, e0 = Event.configDelete app.nameSpace n true) ∨
      e0 = Event.appDelete ns name ∨
      e0 = Event.nodeDeleteAppVersion ns app.name ∨
      e0 = Event.indexRefresh ns app.name []) := by
  subst hr
  by_cases had : f.appDeleteFail = true
  · simp [deleteAppPersist, had, rollbackErr] at h
  by_cases hnd : f.nodeDeleteFail = true
  · simp [deleteAppPersist, DeleteNodeAndAppIndex, had, hnd, rollbackErr] at h
  by_cases hird : f.indexRefreshDeleteFail = true
  · simp [deleteAppPersist, DeleteNodeAndAppIndex, had, hnd, hird, rollbackErr] at h
  have had' : f.appDeleteFail = false := by simpa using had
  have hnd' : f.nodeDeleteFail = false := by simpa using hnd
  have hird' : f.indexRefreshDeleteFail = false := by simpa using hird
  rcases hcg : cleanGenVolumes f (survivorSet []) app.nameSpace app.volumes
      ⟨deleteEntry st.persist.apps (ns, name), st.persist.configs,
       upsertEntry st.persist.index (ns, app.name) []⟩
      st.diags (((evs ++ [Event.appDelete ns name])
        ++ [Event.nodeDeleteAppVersion ns app.name])
        ++ [Event.indexRefresh ns app.name []])
      with ⟨tx5, diags1, evs7⟩
  have hdef : deleteAppPersist f st ns name app crons1 evs
      = ⟨Outcome.ok none, ⟨tx5, crons1, diags1⟩, evs7 ++ [Event.commitTx]⟩ := by
    simp only [deleteAppPersist, DeleteNodeAndAppIndex, had', hnd', hird',
      Bool.false_eq_true, if_false, cleanGenConfigsOfFunctionApp]
    rw [hcg]
  rw [hdef] at h ⊢
  have happs := cleanGen_apps f (survivorSet []) app.nameSpace app.volumes
      ⟨deleteEntry st.persist.apps (ns, name), st.persist.configs,
       upsertEntry st.persist.index (ns, app.name) []⟩
      st.diags (((evs ++ [Event.appDelete ns name])
        ++ [Event.nodeDeleteAppVersion ns app.name])
        ++ [Event.indexRefresh ns app.name []])
  rw [hcg] at happs
  have hidx := cleanGen_index f (survivorSet []) app.nameSpace app.volumes
      ⟨deleteEntry st.persist.apps (ns, name), st.persist.configs,
       upsertEntry st.persist.index (ns, app.name) []⟩
      st.diags (((evs ++ [Event.appDelete ns name])
        ++ [Event.nodeDeleteAppVersion ns app.name])
        ++ [Event.indexRefresh ns app.name []])
  rw [hcg] at hidx
  refine ⟨by simpa using h.symm, rfl, by simpa using happs, ?_, ?_, by simp, ?_, ?_, ?_⟩
  · show lookupEntry tx5.index (ns, app.name) = some []
    rw [hidx]
    exact lookupEntry_upsert_self _ _ _
  · intro k
    have hcfg := cleanGen_configs_lookup f (survivorSet []) app.nameSpace app.volumes
        ⟨deleteEntry st.persist.apps (ns, name), st.persist.configs,
         upsertEntry st.persist.index (ns, app.name) []⟩
        st.diags (((evs ++ [Event.appDelete ns name])
          ++ [Event.nodeDeleteAppVersion ns app.name])
          ++ [Event.indexRefresh ns app.name []]) k
    rw [hcg] at hcfg
    exact hcfg
  · intro x0 hx0
    have hm := cleanGen_events_mono f (survivorSet []) app.nameSpace app.volumes
        ⟨deleteEntry st.persist.apps (ns, name), st.persist.configs,
         upsertEntry st.persist.index (ns, app.name) []⟩
        st.diags (((evs ++ [Event.appDelete ns name])
          ++ [Event.nodeDeleteAppVersion ns app.name])
          ++ [Event.indexRefresh ns app.name []]) x0 (by simp [hx0])
    rw [hcg] at hm
    simp [hm]
  · intro v vc hv hvc hc hf
    have hd := cleanGen_diag_rec f (survivorSet []) app.nameSpace app.volumes
        ⟨deleteEntry st.persist.apps (ns, name), st.persist.configs,
         upsertEntry st.persist.index (ns, app.name) []⟩
        st.diags (((evs ++ [Event.appDelete ns name])
          ++ [Event.nodeDeleteAppVersion ns app.name])
          ++ [Event.indexRefresh ns app.name []]) v vc hv hvc hc hf
    rw [hcg] at hd
    exact hd
  · intro e0 he0
    rcases List.mem_append.mp he0 with he1 | he1
    · have hs := cleanGen_events_shape f (survivorSet []) app.nameSpace app.volumes
          ⟨deleteEntry st.persist.apps (ns, name), st.persist.configs,
           upsertEntry st.persist.index (ns, app.name) []⟩
          st.diags (((evs ++ [Event.appDelete ns name])
            ++ [Event.nodeDeleteAppVersion ns app.name])
            ++ [Event.indexRefresh ns app.name []]) e0 (by rw [hcg]; exact he1)
      rcases hs with hin | ⟨n, hn⟩
      · rcases List.mem_append.mp hin with hin2 | hin2
        · rcases List.mem_append.mp hin2 with hin3 | hin3
          · rcases List.mem_append.mp hin3 with hin4 | hin4
            · exact Or.inl hin4
            · exact Or.inr (Or.inr (Or.inr (Or.inl (by simpa using hin4))))
          · exact Or.inr (Or.inr (Or.inr (Or.inr (Or.inl (by simpa using hin3)))))
        · exact Or.inr (Or.inr (Or.inr (Or.inr (Or.inr (by simpa using hin2)))))
      · exact Or.inr (Or.inr (Or.inl ⟨n, hn⟩))
    · exact Or.inr (Or.inl (by simpa using he1))

theorem DeleteApp_ok_spec (f : Faults) (st : Store) (ns name : String)
    (app : Application) (x : Option Application) (r : RunResult)
    (hr : r = DeleteApp f st ns name app)
    (h : r.outcome = Outcome.ok x) :
    x = none ∧
    r.store.persist.apps = deleteEntry st.persist.apps (ns, name) ∧
    r.store.crons = (if app.cronStatus = CronStatus.wait
      then deleteCronRec st.crons name ns else st.crons) ∧
    lookupEntry r.store.persist.index (ns, app.name) = some [] ∧
    (∀ k, k.1 = app.nameSpace →
      deletedBy f (survivorSet []) app.volumes k.2 = true →
      lookupEntry r.store.persist.configs k = none) ∧
    r.events.getLast? = some Event.commitTx ∧
    (app.cronStatus = CronStatus.wait → Event.cronDelete name ns ∈ r.events) ∧
    (∀ v vc, v ∈ app.volumes → v.config = some vc →
      genConfigCandidate (survivorSet []) vc.name = true →
      f.configDeleteFail vc.name = true →
      (⟨configEntity, app.nameSpace, vc.name⟩ : Diag) ∈ r.store.diags) ∧
    (∀ ns' n b, Event.configDelete ns' n b ∈ r.events → b = true) := by
  by_cases hw : app.cronStatus = CronStatus.wait
  · by_cases hcd : f.cronDeleteFail = true
    · rw [hr] at h
      simp [DeleteApp, hw, hcd, rollbackErr] at h
    have hcd' : f.cronDeleteFail = false := by simpa using hcd
    have hr2 : r = deleteAppPersist f st ns name app (deleteCronRec st.crons name ns)
        ([Event.beginTx] ++ [Event.cronDelete name ns]) := by
      rw [hr]
      simp only [DeleteApp, if_pos hw, hcd', Bool.false_eq_true, if_false]
    obtain ⟨hx, hcr, hap, hix, hcf, hlast, hmono, hdg, hshape⟩ :=
      deleteAppPersist_ok_spec f st ns name app _ _ x r hr2 h
    refine ⟨hx, hap, by rw [if_pos hw]; exact hcr, hix, ?_, hlast, ?_, hdg, ?_⟩
    · intro k hk1 hk2
      rw [hcf k]
      simp [hk1, hk2]
    · intro _
      exact hmono _ (by simp)
    · intro ns' n b hb
      rcases hshape _ hb with h1 | h1 | ⟨n0, h1⟩ | h1 | h1 | h1
      · rcases List.mem_append.mp h1 with h2 | h2 <;> simp at h2
      · cases h1
      · cases h1
        rfl
      · cases h1
      · cases h1
      · cases h1
  · have hr2 : r = deleteAppPersist f st ns name app st.crons [Event.beginTx] := by
      rw [hr]
      simp only [DeleteApp, if_neg hw]
    obtain ⟨hx, hcr, hap, hix, hcf, hlast, hmono, hdg, hshape⟩ :=
      deleteAppPersist_ok_spec f st ns name app _ _ x r hr2 h
    refine ⟨hx, hap, by rw [if_neg hw]; exact hcr, hix, ?_, hlast, ?_, hdg, ?_⟩
    · intro k hk1 hk2
      rw [hcf k]
      simp [hk1, hk2]
    · intro hww
      exact absurd hww hw
    · intro ns' n b hb
      rcases hshape _ hb with h1 | h1 | ⟨n0, h1⟩ | h1 | h1 | h1
      · simp at h1
      · cases h1
      · cases h1
        rfl
      · cases h1
      · cases h1
      · cases h1

/-! ### Rollback safety: every non-success leaves the transactional stores alone -/

theorem updateAppFinish_persist_or (env : Env) (f : Faults) (st : Store) (ns : String)
    (old app1 : Application) (configs : List Configuration) (crons2 : List Cron)
    (tx3 : Persist) (evs5 : List Event) :
    (updateAppFinish env f st ns old app1 configs crons2 tx3 evs5).store.persist
        = st.persist ∨
    (updateAppFinish env f st ns old app1 configs crons2 tx3 evs5).outcome
        = Outcome.ok (some app1) := by
  by_cases hnu : f.nodeUpdateFail = true
  · left
    simp [updateAppFinish, UpdateNodeAndAppIndex, hnu, rollbackErr]
  by_cases hiru : f.indexRefreshUpdateFail = true
  · left
    simp [updateAppFinish, UpdateNodeAndAppIndex, hnu, hiru, rollbackErr]
  · right
    have hnu' : f.nodeUpdateFail = false := by simpa using hnu
    have hiru' : f.indexRefreshUpdateFail = false := by simpa using hiru
    rcases hcg : cleanGenVolumes f (survivorSet configs) old.nameSpace old.volumes
        { tx3 with index := upsertEntry tx3.index (ns, app1.name) (env.selectNodes app1.selector) }
        st.diags ((evs5 ++ [Event.nodeUpdateAppVersion ns app1.name])
          ++ [Event.indexRefresh ns app1.name (env.selectNodes app1.selector)])
        with ⟨tx5, diags1, evs7⟩
    simp only [updateAppFinish, UpdateNodeAndAppIndex, hnu', hiru', Bool.false_eq_true,
      if_false, cleanGenConfigsOfFunctionApp]

theorem updateAppIndexes_persist_or (env : Env) (f : Faults) (st : Store) (ns : String)
    (old app1 : Application) (configs : List Configuration) (crons2 : List Cron)
    (tx2 : Persist) (evs : List Event) :
    (updateAppIndexes env f st ns old app1 configs crons2 tx2 evs).store.persist
        = st.persist ∨
    (updateAppIndexes env f st ns old app1 configs crons2 tx2 evs).outcome
        = Outcome.ok (some app1) := by
  by_cases hsel : old.selector = app1.selector
  · rw [updateAppIndexes, if_neg (by simp [hsel])]
    exact updateAppFinish_persist_or env f st ns old app1 configs crons2 tx2 evs
  by_cases hnd : f.nodeDeleteFail = true
  · left
    rw [updateAppIndexes, if_pos hsel]
    simp [DeleteNodeAndAppIndex, hnd, rollbackErr]
  by_cases hird : f.indexRefreshDeleteFail = true
  · left
    rw [updateAppIndexes, if_pos hsel]
    simp [DeleteNodeAndAppIndex, hnd, hird, rollbackErr]
  · have hnd' : f.nodeDeleteFail = false := by simpa using hnd
    have hird' : f.indexRefreshDeleteFail = false := by simpa using hird
    rw [updateAppIndexes, if_pos hsel]
    simp only [DeleteNodeAndAppIndex, hnd', hird', Bool.false_eq_true, if_false]
    exact updateAppFinish_persist_or env f st ns old app1 configs crons2 _ _

theorem updateAppWithOld_persist_or (env : Env) (f : Faults) (st : Store) (ns : String)
    (oldApp : Option Application) (app1 : Application)
    (configs : List Configuration) (crons1 : List Cron) (tx1 : Persist)
    (evs : List Event) :
    (updateAppWithOld env f st ns oldApp app1 configs crons1 tx1 evs).store.persist
        = st.persist ∨
    (updateAppWithOld env f st ns oldApp app1 configs crons1 tx1 evs).outcome
        = Outcome.ok (some app1) := by
  cases oldApp with
  | none =>
    left
    simp [updateAppWithOld]
  | some old =>
    by_cases hcond : old.cronStatus = CronStatus.wait ∧ app1.cronStatus = CronStatus.notSet
    · by_cases hcd : f.cronDeleteFail = true
      · left
        simp [updateAppWithOld, if_pos hcond, hcd, rollbackErr]
      by_cases hau : f.appUpdateFail = true
      · left
        simp [updateAppWithOld, if_pos hcond, hcd, hau, rollbackErr]
      · have hcd' : f.cronDeleteFail = false := by simpa using hcd
        have hau' : f.appUpdateFail = false := by simpa using hau
        simp only [updateAppWithOld, if_pos hcond, hcd', hau', Bool.false_eq_true, if_false]
        exact updateAppIndexes_persist_or env f st ns old app1 configs _ _ _
    · by_cases hau : f.appUpdateFail = true
      · left
        simp [updateAppWithOld, if_neg hcond, hau, rollbackErr]
      · have hau' : f.appUpdateFail = false := by simpa using hau
        simp only [updateAppWithOld, if_neg hcond, hau', Bool.false_eq_true, if_false]
        exact updateAppIndexes_persist_or env f st ns old app1 configs _ _ _

theorem UpdateApp_persist_or (env : Env) (f : Faults) (st : Store) (ns : String)
    (oldApp : Option Application) (app : Application)
    (configs : List Configuration) :
    (UpdateApp env f st ns oldApp app configs).store.persist = st.persist ∨
    (UpdateApp env f st ns oldApp app configs).outcome
        = Outcome.ok (some (effApp app)) := by
  rcases hug : updateGenConfigsOfFunctionApp f ns configs st.persist [Event.beginTx]
    with ⟨otx, evs1⟩
  cases otx with
  | none =>
    left
    simp [UpdateApp, hug, rollbackErr]
  | some tx1 =>
    by_cases hw : app.cronStatus = CronStatus.wait
    · by_cases hcu : f.cronUpdateFail = true
      · left
        simp [UpdateApp, hug, hw, hcu, rollbackErr]
      · have hcu' : f.cronUpdateFail = false := by simpa using hcu
        have heff : effApp app = { app with selector := "" } := by simp [effApp, hw]
        rw [heff]
        simp only [UpdateApp, hug, if_pos hw, hcu', Bool.false_eq_true, if_false]
        exact updateAppWithOld_persist_or env f st ns oldApp _ configs _ tx1 _
    · have heff : effApp app = app := by simp [effApp, hw]
      rw [heff]
      simp only [UpdateApp, hug, if_neg hw]
      exact updateAppWithOld_persist_or env f st ns oldApp app configs _ tx1 _

theorem createAppPersist_persist_or (env : Env) (f : Faults) (st : Store) (ns : String)
    (app1 : Application) (crons1 : List Cron) (tx1 : Persist) (evs : List Event) :
    (createAppPersist env f st ns app1 crons1 tx1 evs).store.persist = st.persist ∨
    (createAppPersist env f st ns app1 crons1 tx1 evs).outcome
        = Outcome.ok (some app1) := by
  by_cases hac : f.appCreateFail = true
  · left
    simp [createAppPersist, hac, rollbackErr]
  by_cases hnu : f.nodeUpdateFail = true
  · left
    simp [createAppPersist, UpdateNodeAndAppIndex, hac, hnu, rollbackErr]
  by_cases hiru : f.indexRefreshUpdateFail = true
  · left
    simp [createAppPersist, UpdateNodeAndAppIndex, hac, hnu, hiru, rollbackErr]
  · right
    simp [createAppPersist, UpdateNodeAndAppIndex, hac, hnu, hiru]

theorem CreateApp_persist_or (env : Env) (f : Faults) (st : Store) (ns : String)
    (baseApp : Option Application) (app : Application)
    (configs : List Configuration) :
    (CreateApp env f st ns baseApp app configs).store.persist = st.persist ∨
    (CreateApp env f st ns baseApp app configs).outcome
        = Outcome.ok (some (effApp app)) := by
  rcases hug : updateGenConfigsOfFunctionApp f ns configs st.persist [Event.beginTx]
    with ⟨otx, evs1⟩
  cases otx with
  | none =>
    left
    simp [CreateApp, hug, rollbackErr]
  | some tx1 =>
    by_cases hw : app.cronStatus = CronStatus.wait
    · by_cases hcc : f.cronCreateFail = true
      · left
        simp [CreateApp, hug, hw, hcc, rollbackErr]
      · have hcc' : f.cronCreateFail = false := by simpa using hcc
        have heff : effApp app = { app with selector := "" } := by simp [effApp, hw]
        rw [heff]
        simp only [CreateApp, hug, if_pos hw, hcc', Bool.false_eq_true, if_false]
        exact createAppPersist_persist_or env f st ns _ _ tx1 _
    · have heff : effApp app = app := by simp [effApp, hw]
      rw [heff]
      simp only [CreateApp, hug, if_neg hw]
      exact createAppPersist_persist_or env f st ns app _ tx1 _

theorem deleteAppPersist_persist_or (f : Faults) (st : Store) (ns name : String)
    (app : Application) (crons1 : List Cron) (evs : List Event) :
    (deleteAppPersist f st ns name app crons1 evs).store.persist = st.persist ∨
    (deleteAppPersist f st ns name app crons1 evs).outcome = Outcome.ok none := by
  by_cases had : f.appDeleteFail = true
  · left
    simp [deleteAppPersist, had, rollbackErr]
  by_cases hnd : f.nodeDeleteFail = true
  · left
    simp [deleteAppPersist, DeleteNodeAndAppIndex, had, hnd, rollbackErr]
  by_cases hird : f.indexRefreshDeleteFail = true
  · left
    simp [deleteAppPersist, DeleteNodeAndAppIndex, had, hnd, hird, rollbackErr]
  · right
    have had' : f.appDeleteFail = false := by simpa using had
    have hnd' : f.nodeDeleteFail = false := by simpa using hnd
    have hird' : f.indexRefreshDeleteFail = false := by simpa using hird
    rcases hcg : cleanGenVolumes f (survivorSet []) app.nameSpace app.volumes
        ⟨deleteEntry st.persist.apps (ns, name), st.persist.configs,
         upsertEntry st.persist.index (ns, app.name) []⟩
        st.diags (((evs ++ [Event.appDelete ns name])
          ++ [Event.nodeDeleteAppVersion ns app.name])
          ++ [Event.indexRefresh ns app.name []])
        with ⟨tx5, diags1, evs7⟩
    simp only [deleteAppPersist, DeleteNodeAndAppIndex, had', hnd', hird',
      Bool.false_eq_true, if_false, cleanGenConfigsOfFunctionApp]

theorem DeleteApp_persist_or (f : Faults) (st : Store) (ns name : String)
    (app : Application) :
    (DeleteApp f st ns name app).store.persist = st.persist ∨
    (DeleteApp f st ns name app).outcome = Outcome.ok none := by
  by_cases hw : app.cronStatus = CronStatus.wait
  · by_cases hcd : f.cronDeleteFail = true
    · left
      simp [DeleteApp, hw, hcd, rollbackErr]
    · have hcd' : f.cronDeleteFail = false := by simpa using hcd
      simp only [DeleteApp, if_pos hw, hcd', Bool.false_eq_true, if_false]
      exact deleteAppPersist_persist_or f st ns name app _ _
  · simp only [DeleteApp, if_neg hw]
    exact deleteAppPersist_persist_or f st ns name app _ _

/-! ### More store lemmas, and success under benign fault oracles -/

theorem lookupEntry_eq_none_iff {α : Type} {l : List ((String × String) × α)}
    {k : String × String} :
    lookupEntry l k = none ↔ ∀ kv ∈ l, kv.1 ≠ k := by
  unfold lookupEntry
  constructor
  · intro h kv hkv hk
    rcases Option.map_eq_none'.mp h with hfind
    rw [List.find?_eq_none] at hfind
    have := hfind kv hkv
    simp [hk] at this
  · intro h
    rw [Option.map_eq_none']
    rw [List.find?_eq_none]
    intro kv hkv
    simp [h kv hkv]

theorem lookupEntry_eq_some_mem {α : Type} {l : List ((String × String) × α)}
    {k : String × String} {v : α} (h : lookupEntry l k = some v) : (k, v) ∈ l := by
  unfold lookupEntry at h
  rcases Option.map_eq_some'.mp h with ⟨kv, hfind, hv⟩
  have hmem := List.mem_of_find?_eq_some hfind
  have hpred := List.find?_some hfind
  simp only [decide_eq_true_eq] at hpred
  have : kv = (k, v) := by
    cases kv
    simp_all
  rw [← this]
  exact hmem

theorem eq_of_nodupKeys {α : Type} :
    ∀ (l : List ((String × String) × α)), (l.map Prod.fst).Nodup →
      ∀ (k : String × String) (v1 v2 : α), (k, v1) ∈ l → (k, v2) ∈ l → v1 = v2 := by
  intro l
  induction l with
  | nil =>
    intro _ k v1 v2 h1
    cases h1
  | cons kv0 tl ih =>
    intro hnd k v1 v2 h1 h2
    rw [List.map_cons, List.nodup_cons] at hnd
    rcases List.mem_cons.mp h1 with he1 | ht1
    · rcases List.mem_cons.mp h2 with he2 | ht2
      · rw [← he1] at he2
        exact congrArg Prod.snd he2.symm
      · exfalso
        apply hnd.1
        have : kv0.1 = k := by rw [← he1]
        rw [this]
        exact List.mem_map.mpr ⟨(k, v2), ht2, rfl⟩
    · rcases List.mem_cons.mp h2 with he2 | ht2
      · exfalso
        apply hnd.1
        have : kv0.1 = k := by rw [← he2]
        rw [this]
        exact List.mem_map.mpr ⟨(k, v1), ht1, rfl⟩
      · exact ih hnd.2 k v1 v2 ht1 ht2

theorem hasCron_upsertCron_self (cs : List Cron) (c : Cron) :
    hasCron (upsertCron cs c) c.name c.nameSpace = true := by
  simp [hasCron, upsertCron]

theorem updateAppFinish_flags_ok (env : Env) (f : Faults) (st : Store) (ns : String)
    (old app1 : Application) (configs : List Configuration) (crons2 : List Cron)
    (tx3 : Persist) (evs5 : List Event)
    (h5 : f.nodeUpdateFail = false) (h8 : f.indexRefreshUpdateFail = false) :
    (updateAppFinish env f st ns old app1 configs crons2 tx3 evs5).outcome
      = Outcome.ok (some app1) := by
  simp only [updateAppFinish, UpdateNodeAndAppIndex, h5, h8, Bool.false_eq_true,
    if_false, cleanGenConfigsOfFunctionApp]

theorem updateAppIndexes_flags_ok (env : Env) (f : Faults) (st : Store) (ns : String)
    (old app1 : Application) (configs : List Configuration) (crons2 : List Cron)
    (tx2 : Persist) (evs : List Event)
    (h5 : f.nodeUpdateFail = false) (h6 : f.nodeDeleteFail = false)
    (h7 : f.indexRefreshDeleteFail = false) (h8 : f.indexRefreshUpdateFail = false) :
    (updateAppIndexes env f st ns old app1 configs crons2 tx2 evs).outcome
      = Outcome.ok (some app1) := by
  by_cases hsel : old.selector = app1.selector
  · rw [updateAppIndexes, if_neg (by simp [hsel])]
    exact updateAppFinish_flags_ok env f st ns old app1 configs crons2 tx2 evs h5 h8
  · rw [updateAppIndexes, if_pos hsel]
    simp only [DeleteNodeAndAppIndex, h6, h7, Bool.false_eq_true, if_false]
    exact updateAppFinish_flags_ok env f st ns old app1 configs crons2 _ _ h5 h8

theorem updateAppWithOld_flags_ok (env : Env) (f : Faults) (st : Store) (ns : String)
    (old app1 : Application) (configs : List Configuration) (crons1 : List Cron)
    (tx1 : Persist) (evs : List Event)
    (h3 : f.cronDeleteFail = false) (h4 : f.appUpdateFail = false)
    (h5 : f.nodeUpdateFail = false) (h6 : f.nodeDeleteFail = false)
    (h7 : f.indexRefreshDeleteFail = false) (h8 : f.indexRefreshUpdateFail = false) :
    (updateAppWithOld env f st ns (some old) app1 configs crons1 tx1 evs).outcome
      = Outcome.ok (some app1) := by
  by_cases hcond : old.cronStatus = CronStatus.wait ∧ app1.cronStatus = CronStatus.notSet
  · simp only [updateAppWithOld, if_pos hcond, h3, h4, Bool.false_eq_true, if_false]
    exact updateAppIndexes_flags_ok env f st ns old app1 configs _ _ _ h5 h6 h7 h8
  · simp only [updateAppWithOld, if_neg hcond, h4, Bool.false_eq_true, if_false]
    exact updateAppIndexes_flags_ok env f st ns old app1 configs _ _ _ h5 h6 h7 h8

theorem UpdateApp_flags_ok (env : Env) (f : Faults) (st : Store) (ns : String)
    (old app : Application) (configs : List Configuration)
    (h1 : ∀ n, f.configUpsertFail n = false) (h2 : f.cronUpdateFail = false)
    (h3 : f.cronDeleteFail = false) (h4 : f.appUpdateFail = false)
    (h5 : f.nodeUpdateFail = false) (h6 : f.nodeDeleteFail = false)
    (h7 : f.indexRefreshDeleteFail = false) (h8 : f.indexRefreshUpdateFail = false) :
    (UpdateApp env f st ns (some old) app configs).outcome
      = Outcome.ok (some (effApp app)) := by
  obtain ⟨tx1, evs1, hug⟩ := updateGen_noFail f ns h1 configs st.persist [Event.beginTx]
  by_cases hw : app.cronStatus = CronStatus.wait
  · have heff : effApp app = { app with selector := "" } := by simp [effApp, hw]
    rw [heff]
    simp only [UpdateApp, hug, if_pos hw, h2, Bool.false_eq_true, if_false]
    exact updateAppWithOld_flags_ok env f st ns old _ configs _ tx1 _ h3 h4 h5 h6 h7 h8
  · have heff : effApp app = app := by simp [effApp, hw]
    rw [heff]
    simp only [UpdateApp, hug, if_neg hw]
    exact updateAppWithOld_flags_ok env f st ns old app configs _ tx1 _ h3 h4 h5 h6 h7 h8

theorem createAppPersist_flags_ok (env : Env) (f : Faults) (st : Store) (ns : String)
    (app1 : Application) (crons1 : List Cron) (tx1 : Persist) (evs : List Event)
    (ha : f.appCreateFail = false) (h5 : f.nodeUpdateFail = false)
    (h8 : f.indexRefreshUpdateFail = false) :
    (createAppPersist env f st ns app1 crons1 tx1 evs).outcome
      = Outcome.ok (some app1) := by
  simp only [createAppPersist, UpdateNodeAndAppIndex, ha, h5, h8,
    Bool.false_eq_true, if_false]

theorem CreateApp_flags_ok (env : Env) (f : Faults) (st : Store) (ns : String)
    (baseApp : Option Application) (app : Application) (configs : List Configuration)
    (h1 : ∀ n, f.configUpsertFail n = false) (h2 : f.cronCreateFail = false)
    (ha : f.appCreateFail = false) (h5 : f.nodeUpdateFail = false)
    (h8 : f.indexRefreshUpdateFail = false) :
    (CreateApp env f st ns baseApp app configs).outcome
      = Outcome.ok (some (effApp app)) := by
  obtain ⟨tx1, evs1, hug⟩ := updateGen_noFail f ns h1 configs st.persist [Event.beginTx]
  by_cases hw : app.cronStatus = CronStatus.wait
  · have heff : effApp app = { app with selector := "" } := by simp [effApp, hw]
    rw [heff]
    simp only [CreateApp, hug, if_pos hw, h2, Bool.false_eq_true, if_false]
    exact createAppPersist_flags_ok env f st ns _ _ tx1 _ ha h5 h8
  · have heff : effApp app = app := by simp [effApp, hw]
    rw [heff]
    simp only [CreateApp, hug, if_neg hw]
    exact createAppPersist_flags_ok env f st ns app _ tx1 _ ha h5 h8

theorem deleteAppPersist_flags_ok (f : Faults) (st : Store) (ns name : String)
    (app : Application) (crons1 : List Cron) (evs : List Event)
    (ha : f.appDeleteFail = false) (h6 : f.nodeDeleteFail = false)
    (h7 : f.indexRefreshDeleteFail = false) :
    (deleteAppPersist f st ns name app crons1 evs).outcome = Outcome.ok none := by
  simp only [deleteAppPersist, DeleteNodeAndAppIndex, ha, h6, h7,
    Bool.false_eq_true, if_false, cleanGenConfigsOfFunctionApp]

theorem DeleteApp_flags_ok (f : Faults) (st : Store) (ns name : String)
    (app : Application)
    (h3 : f.cronDeleteFail = false) (ha : f.appDeleteFail = false)
    (h6 : f.nodeDeleteFail = false) (h7 : f.indexRefreshDeleteFail = false) :
    (DeleteApp f st ns name app).outcome = Outcome.ok none := by
  by_cases hw : app.cronStatus = CronStatus.wait
  · simp only [DeleteApp, if_pos hw, h3, Bool.false_eq_true, if_false]
    exact deleteAppPersist_flags_ok f st ns name app _ _ ha h6 h7
  · simp only [DeleteApp, if_neg hw]
    exact deleteAppPersist_flags_ok f st ns name app _ _ ha h6 h7

/-! ### Concrete fixtures for witnesses and counterexamples -/

/-- A node environment: `env=prod` matches n1 and n2, `env=staging` matches n3,
every other selector matches nothing. -/
def env0 : Env :=
  ⟨fun s => if s = "env=prod" then ["n1", "n2"]
    else if s = "env=staging" then ["n3"] else []⟩

/-- The empty store. -/
def store0 : Store := ⟨⟨[], [], []⟩, [], []⟩

/-- A Wait-state application carrying a selector. -/
def appW : Application := ⟨"a", "ns", "v1", "sel", CronStatus.wait, "ct", []⟩

/-- A plain (NotSet) application with a selector matching n1 and n2. -/
def appP : Application := ⟨"a", "ns", "v1", "env=prod", CronStatus.notSet, "", []⟩

/-- Faults forcing only the Application-create step to fail. -/
def f1 : Faults := { noFaults with appCreateFail := true }

/-- A volume referencing the named Configuration. -/
def volOf (n : String) : Volume := ⟨some ⟨n⟩⟩

/-- Old application of the reconciliation scenario: references one surviving
generated config, one user config, and one orphaned generated config. -/
def oldC : Application :=
  ⟨"a", "ns", "v1", "env=prod", CronStatus.notSet, "",
   [volOf "baetyl-function-config-a", volOf "user-cfg",
    volOf "baetyl-function-program-config-b"]⟩

/-- New application body for the reconciliation scenario. -/
def newC : Application := ⟨"a", "ns", "v2", "env=staging", CronStatus.notSet, "", []⟩

/-- Surviving generated Configuration of the reconciliation scenario. -/
def cfgA : Configuration := ⟨"baetyl-function-config-a", "pa"⟩

/-- Store for the reconciliation scenario: the app, its three configs, and its
current index. -/
def storeC : Store :=
  ⟨⟨[(("ns", "a"), oldC)],
    [(("ns", "baetyl-function-config-a"), cfgA),
     (("ns", "baetyl-function-program-config-b"),
      ⟨"baetyl-function-program-config-b", "pb"⟩),
     (("ns", "user-cfg"), ⟨"user-cfg", "pu"⟩)],
    [(("ns", "a"), ["n1", "n2"])]⟩, [], []⟩

/-- Wait-state stored application (selector lives on the Cron record). -/
def oldW : Application := ⟨"a", "ns", "v1", "", CronStatus.wait, "ct", []⟩

/-- The same application moved to Scheduled. -/
def newS : Application :=
  ⟨"a", "ns", "v2", "env=prod", CronStatus.scheduled, "ct", []⟩

/-- The same application moved back to NotSet. -/
def newN : Application := ⟨"a", "ns", "v2", "env=prod", CronStatus.notSet, "ct", []⟩

/-- Store holding `oldW` together with its Cron record. -/
def storeW : Store :=
  ⟨⟨[(("ns", "a"), oldW)], [], []⟩, [⟨"a", "ns", "sel", "ct"⟩], []⟩

/-- Store holding a Wait-state application and its Cron record, for `GetApp`. -/
def storeG : Store :=
  ⟨⟨[(("ns", "a"), oldW)], [], []⟩, [⟨"a", "ns", "cronsel", "ct"⟩], []⟩

/-- Fault oracle failing exactly the orphaned generated config's deletion. -/
def g8 : String → Bool := fun n => decide (n = "baetyl-function-program-config-b")

/-- The events of a trace up to (excluding) the transaction commit. -/
def beforeCommit (evs : List Event) : List Event :=
  evs.takeWhile (fun e => !decide (e = Event.commitTx))

/-! ### The claims -/

theorem genConfigCandidate_iff (s : List String) (n : String) :
    genConfigCandidate s n = true ↔
      n ∉ s ∧ (strStartsWith n FunctionConfigPfx = true
        ∨ strStartsWith n FunctionProgramConfigPfx = true) := by
  simp [genConfigCandidate]

theorem deletedBy_iff (f : Faults) (s : List String) (vols : List Volume)
    (n : String) :
    deletedBy f s vols n = true ↔
      ∃ v ∈ vols, v.config = some ⟨n⟩ ∧ genConfigCandidate s n = true
        ∧ f.configDeleteFail n = false := by
  rw [deletedBy, List.any_eq_true]
  constructor
  · rintro ⟨v, hv, hp⟩
    cases hvc : v.config with
    | none => rw [hvc] at hp; cases hp
    | some vc =>
      rw [hvc] at hp
      simp only [Bool.and_eq_true, Bool.not_eq_true', decide_eq_true_eq] at hp
      obtain ⟨⟨hn, hc⟩, hf⟩ := hp
      refine ⟨v, hv, ?_, hn ▸ hc, hn ▸ hf⟩
      rw [hvc]
      cases vc
      simp_all
  · rintro ⟨v, hv, hvc, hc, hf⟩
    refine ⟨v, hv, ?_⟩
    rw [hvc]
    simp [hc, hf]

theorem deletedBy_of_volume (f : Faults) (s : List String) (vols : List Volume)
    (v : Volume) (vc : VolumeConfig) (hv : v ∈ vols) (hvc : v.config = some vc)
    (hc : genConfigCandidate s vc.name = true)
    (hf : f.configDeleteFail vc.name = false) :
    deletedBy f s vols vc.name = true := by
  rw [deletedBy_iff]
  exact ⟨v, hv, by rw [hvc], hc, hf⟩

/-- C5: with no injected faults, the generated-Configuration reconciliation
deletes exactly the Configurations (in the old application's namespace) that
are referenced by some volume of the old application, whose name is not in
the surviving Configuration-name set, and whose name carries one of the two
reserved generation prefixes; every other Configuration keeps exactly its
previous store entry. -/
theorem C5_reconciliation_exact (configs : List Configuration)
    (oldApp : Application) (tx : Persist) (d : List Diag) (e : List Event)
    (k : String × String) :
    lookupEntry (cleanGenConfigsOfFunctionApp noFaults configs oldApp tx d e).1.configs k
      = if k.1 = oldApp.nameSpace ∧ (∃ v ∈ oldApp.volumes, v.config = some ⟨k.2⟩)
           ∧ k.2 ∉ survivorSet configs
           ∧ (strStartsWith k.2 FunctionConfigPfx = true
              ∨ strStartsWith k.2 FunctionProgramConfigPfx = true)
        then none else lookupEntry tx.configs k := by
  rw [cleanGenConfigsOfFunctionApp, cleanGen_configs_lookup]
  refine if_congr ?_ rfl rfl
  rw [deletedBy_iff]
  constructor
  · rintro ⟨hns, v, hv, hvc, hc, _⟩
    rw [genConfigCandidate_iff] at hc
    exact ⟨hns, ⟨v, hv, hvc⟩, hc.1, hc.2⟩
  · rintro ⟨hns, ⟨v, hv, hvc⟩, hs, hp⟩
    exact ⟨hns, v, hv, hvc, (genConfigCandidate_iff _ _).mpr ⟨hs, hp⟩, rfl⟩

/-- C7: for an existing Application in Wait state, `GetApp` overlays the Cron
record's selector onto the returned Application when the Cron lookup
succeeds; when the lookup fails (forced error or missing record), the
Application is still returned with its stored selector; only the Selector
field is ever touched by the enrichment. -/
theorem C7_getApp_enrichment (f : Faults) (st : Store) (ns name version : String)
    (a : Application) (hst : lookupEntry st.persist.apps (ns, name) = some a)
    (hw : a.cronStatus = CronStatus.wait) :
    (∀ c, f.cronGetFail = false → findCron st.crons name ns = some c →
      GetApp f st ns name version = some { a with selector := c.selector }) ∧
    (f.cronGetFail = true → GetApp f st ns name version = some a) ∧
    (findCron st.crons name ns = none → GetApp f st ns name version = some a) := by
  refine ⟨?_, ?_, ?_⟩
  · intro c hf hc
    unfold GetApp
    rw [hst]
    simp [hw, hf, hc]
  · intro hf
    unfold GetApp
    rw [hst]
    simp [hw, hf]
  · intro hc
    unfold GetApp
    rw [hst]
    by_cases hf : f.cronGetFail = true
    · simp [hw, hf]
    · simp [hw, hf, hc]

theorem C7_witness :
    GetApp noFaults storeG "ns" "a" "" = some { oldW with selector := "cronsel" } :=
  (C7_getApp_enrichment noFaults storeG "ns" "a" "" oldW (by decide) (by decide)).1
    ⟨"a", "ns", "cronsel", "ct"⟩ rfl (by decide)

/-- C10: `CreateApp`/`UpdateApp` write the Cron record keyed by the
application's own Name and Namespace fields (ignoring the `ns` argument),
while `UpdateApp`'s Wait-to-NotSet deletion and `DeleteApp` key the deletion
by the `ns` (and `name`) arguments; the two keys coincide exactly when
`app.Namespace == ns`. -/
theorem C10_cron_keying :
    (∀ env st ns baseApp app configs, app.cronStatus = CronStatus.wait →
      Event.cronCreate app.name app.nameSpace
        ∈ (CreateApp env noFaults st ns baseApp app configs).events) ∧
    (∀ env st ns old app configs, app.cronStatus = CronStatus.wait →
      Event.cronUpdate app.name app.nameSpace
        ∈ (UpdateApp env noFaults st ns (some old) app configs).events) ∧
    (∀ env st ns old app configs, old.cronStatus = CronStatus.wait →
      app.cronStatus = CronStatus.notSet →
      Event.cronDelete app.name ns
        ∈ (UpdateApp env noFaults st ns (some old) app configs).events) ∧
    (∀ st ns name app, app.cronStatus = CronStatus.wait →
      Event.cronDelete name ns ∈ (DeleteApp noFaults st ns name app).events) ∧
    (∀ (app : Application) (ns : String),
      (app.name, app.nameSpace) = (app.name, ns) ↔ app.nameSpace = ns) := by
  refine ⟨?_, ?_, ?_, ?_, ?_⟩
  · intro env st ns baseApp app configs hw
    have hok := CreateApp_flags_ok env noFaults st ns baseApp app configs
      (fun _ => rfl) rfl rfl rfl rfl
    obtain ⟨_, _, _, _, _, hev⟩ :=
      CreateApp_ok_spec env noFaults st ns baseApp app configs _ _ rfl hok
    exact hev hw
  · intro env st ns old app configs hw
    have hok := UpdateApp_flags_ok env noFaults st ns old app configs
      (fun _ => rfl) rfl rfl rfl rfl rfl rfl rfl
    obtain ⟨_, _, _, _, _, _, _, _, _, hcu, _, _⟩ :=
      UpdateApp_ok_spec env noFaults st ns old app configs _ _ rfl hok
    exact hcu hw
  · intro env st ns old app configs how hnw
    have hok := UpdateApp_flags_ok env noFaults st ns old app configs
      (fun _ => rfl) rfl rfl rfl rfl rfl rfl rfl
    obtain ⟨_, _, _, _, _, _, _, _, hcdIff, _, _, _⟩ :=
      UpdateApp_ok_spec env noFaults st ns old app configs _ _ rfl hok
    exact hcdIff.mpr ⟨how, hnw⟩
  · intro st ns name app hw
    have hok := DeleteApp_flags_ok noFaults st ns name app rfl rfl rfl rfl
    obtain ⟨_, _, _, _, _, _, hcd, _, _⟩ :=
      DeleteApp_ok_spec noFaults st ns name app _ _ rfl hok
    exact hcd hw
  · intro app ns
    constructor
    · intro h
      simpa using h
    · intro h
      rw [h]

theorem C10_witness :
    Event.cronCreate "a" "ns"
      ∈ (CreateApp env0 noFaults store0 "other" none appW []).events :=
  C10_cron_keying.1 env0 store0 "other" none appW [] (by decide)

/-- C1 (as stated) is false: inject a failure at the Application-create step
of `CreateApp` on a Wait-state application.  The operation aborts with an
error, yet the Cron record created earlier in the same call is observable
afterwards — Cron operations are not covered by the transaction. -/
theorem C1_counterexample :
    (CreateApp env0 f1 store0 "ns" none appW []).outcome = Outcome.err ∧
    store0.crons = [] ∧
    (CreateApp env0 f1 store0 "ns" none appW []).store.crons
      = [⟨"a", "ns", "sel", "ct"⟩] := by decide

/-- C1 amended: for every forced failure at any step, no Application,
Configuration, or Index mutation from the call is observable afterwards (the
transactional stores are exactly as before); Cron mutations, however, are
made outside the transaction handle and a Cron record written before the
failing step survives the rollback (witnessed by the concrete CreateApp run
whose Application-create step fails after the Cron create succeeded). -/
theorem C1_amended :
    (∀ env f st ns baseApp app configs,
      (CreateApp env f st ns baseApp app configs).outcome = Outcome.err →
      (CreateApp env f st ns baseApp app configs).store.persist = st.persist) ∧
    (∀ env f st ns oldApp app configs,
      (UpdateApp env f st ns oldApp app configs).outcome
          ≠ Outcome.ok (some (effApp app)) →
      (UpdateApp env f st ns oldApp app configs).store.persist = st.persist) ∧
    (∀ f st ns name app,
      (DeleteApp f st ns name app).outcome = Outcome.err →
      (DeleteApp f st ns name app).store.persist = st.persist) ∧
    (CreateApp env0 f1 store0 "ns" none appW []).outcome = Outcome.err ∧
    (CreateApp env0 f1 store0 "ns" none appW []).store.crons
      = [⟨"a", "ns", "sel", "ct"⟩] := by
  refine ⟨?_, ?_, ?_, by decide, by decide⟩
  · intro env f st ns baseApp app configs h
    rcases CreateApp_persist_or env f st ns baseApp app configs with hp | hok
    · exact hp
    · rw [hok] at h
      cases h
  · intro env f st ns oldApp app configs h
    rcases UpdateApp_persist_or env f st ns oldApp app configs with hp | hok
    · exact hp
    · exact absurd hok h
  · intro f st ns name app h
    rcases DeleteApp_persist_or f st ns name app with hp | hok
    · exact hp
    · rw [hok] at h
      cases h

theorem C1_amended_witness :
    (CreateApp env0 f1 store0 "ns" none appW []).store.persist = store0.persist :=
  C1_amended.1 env0 f1 store0 "ns" none appW [] (by decide)

/-- C2 (as stated) is false: in a successful `UpdateApp` the reconciliation's
Configuration deletion appears in the trace strictly before the commit event
(the trace's `beforeCommit` prefix contains it), and the deletion was made
through the transaction handle and is part of the committed state. -/
theorem C2_counterexample :
    (UpdateApp env0 noFaults storeC "ns" (some oldC) newC [cfgA]).outcome
      = Outcome.ok (some newC) ∧
    Event.configDelete "ns" "baetyl-function-program-config-b" true
      ∈ beforeCommit
          (UpdateApp env0 noFaults storeC "ns" (some oldC) newC [cfgA]).events ∧
    lookupEntry
        (UpdateApp env0 noFaults storeC "ns" (some oldC) newC [cfgA]).store.persist.configs
        ("ns", "baetyl-function-program-config-b") = none := by decide

/-- C2 amended: the generated-Configuration reconciliation runs inside the
operation, before the deferred commit — in every successful `UpdateApp` or
`DeleteApp` the commit is the last trace event and every reconciliation
deletion precedes it — and each deletion is passed the transaction handle,
so the deletions participate in (and commit with) the operation's
transaction rather than running after it. -/
theorem C2_amended :
    (∀ env f st ns old app configs x,
      (UpdateApp env f st ns (some old) app configs).outcome = Outcome.ok x →
      (UpdateApp env f st ns (some old) app configs).events.getLast?
        = some Event.commitTx ∧
      (∀ ns' n b, Event.configDelete ns' n b
        ∈ (UpdateApp env f st ns (some old) app configs).events → b = true)) ∧
    (∀ f st ns name app x,
      (DeleteApp f st ns name app).outcome = Outcome.ok x →
      (DeleteApp f st ns name app).events.getLast? = some Event.commitTx ∧
      (∀ ns' n b, Event.configDelete ns' n b
        ∈ (DeleteApp f st ns name app).events → b = true)) := by
  constructor
  · intro env f st ns old app configs x h
    obtain ⟨_, _, _, _, _, hlast, _, _, _, _, _, hb⟩ :=
      UpdateApp_ok_spec env f st ns old app configs x _ rfl h
    exact ⟨hlast, hb⟩
  · intro f st ns name app x h
    obtain ⟨_, _, _, _, _, hlast, _, _, hshape⟩ :=
      DeleteApp_ok_spec f st ns name app x _ rfl h
    refine ⟨hlast, ?_⟩
    intro ns' n b hb
    exact hshape ns' n b hb

theorem C2_amended_witness :
    (UpdateApp env0 noFaults storeC "ns" (some oldC) newC [cfgA]).events.getLast?
      = some Event.commitTx :=
  (C2_amended.1 env0 noFaults storeC "ns" oldC newC [cfgA] (some newC) (by decide)).1

/-- C6: in a successful `UpdateApp`, the Cron record is deleted exactly when
the old state was Wait and the new state is NotSet (the trace contains the
Cron deletion iff that transition happened); a Wait-to-Wait transition keeps
a Cron row for the application, and no other transition triggers deletion. -/
theorem C6_cron_delete_rule (env : Env) (f : Faults) (st : Store) (ns : String)
    (old app : Application) (configs : List Configuration)
    (x : Option Application)
    (h : (UpdateApp env f st ns (some old) app configs).outcome = Outcome.ok x) :
    ((Event.cronDelete app.name ns
        ∈ (UpdateApp env f st ns (some old) app configs).events)
      ↔ (old.cronStatus = CronStatus.wait ∧ app.cronStatus = CronStatus.notSet)) ∧
    (old.cronStatus = CronStatus.wait → app.cronStatus = CronStatus.wait →
      hasCron (UpdateApp env f st ns (some old) app configs).store.crons
        app.name app.nameSpace = true) := by
  obtain ⟨_, hcr, _, _, _, _, _, _, hcdIff, _, _, _⟩ :=
    UpdateApp_ok_spec env f st ns old app configs x _ rfl h
  refine ⟨hcdIff, ?_⟩
  intro how hnw
  rw [hcr, if_neg (by rintro ⟨_, hns⟩; rw [hnw] at hns; cases hns)]
  have hca : cronsAfterUpd app st.crons
      = upsertCron st.crons ⟨app.name, app.nameSpace, app.selector, app.cronTime⟩ := by
    simp [cronsAfterUpd, hnw]
  rw [hca]
  exact hasCron_upsertCron_self _ _

theorem C6_witness :
    Event.cronDelete "a" "ns"
      ∈ (UpdateApp env0 noFaults storeW "ns" (some oldW) newN []).events :=
  (C6_cron_delete_rule env0 noFaults storeW "ns" oldW newN [] (some newN)
    (by decide)).1.mpr (by decide)

/-- C4: in a successful `UpdateApp`, the full removal of the application's
old Node Index entries happens iff the persisted (post-processing) selector
differs from the old application's selector — the trace contains the
node-delete call and the refresh of the old entries to the empty set exactly
in that case; after a successful `CreateApp`/`UpdateApp` the Node Index of
the application holds exactly the node set returned for its effective
selector; after a successful `DeleteApp` that index is empty. -/
theorem C4_index_consistency :
    (∀ env f st ns old app configs x,
      (UpdateApp env f st ns (some old) app configs).outcome = Outcome.ok x →
      ((Event.nodeDeleteAppVersion ns old.name
          ∈ (UpdateApp env f st ns (some old) app configs).events)
        ↔ old.selector ≠ (effApp app).selector) ∧
      (old.selector ≠ (effApp app).selector →
        Event.indexRefresh ns old.name []
          ∈ (UpdateApp env f st ns (some old) app configs).events) ∧
      lookupEntry
          (UpdateApp env f st ns (some old) app configs).store.persist.index
          (ns, app.name)
        = some (env.selectNodes (effApp app).selector)) ∧
    (∀ env f st ns baseApp app configs x,
      (CreateApp env f st ns baseApp app configs).outcome = Outcome.ok x →
      lookupEntry
          (CreateApp env f st ns baseApp app configs).store.persist.index
          (ns, app.name)
        = some (env.selectNodes (effApp app).selector)) ∧
    (∀ f st ns name app x,
      (DeleteApp f st ns name app).outcome = Outcome.ok x →
      lookupEntry (DeleteApp f st ns name app).store.persist.index (ns, app.name)
        = some []) := by
  refine ⟨?_, ?_, ?_⟩
  · intro env f st ns old app configs x h
    obtain ⟨_, _, _, hix, _, _, hnodeIff, hrefr, _, _, _, _⟩ :=
      UpdateApp_ok_spec env f st ns old app configs x _ rfl h
    exact ⟨hnodeIff, hrefr, hix⟩
  · intro env f st ns baseApp app configs x h
    obtain ⟨_, _, _, hix, _, _⟩ :=
      CreateApp_ok_spec env f st ns baseApp app configs x _ rfl h
    exact hix
  · intro f st ns name app x h
    obtain ⟨_, _, _, hix, _, _, _, _, _⟩ :=
      DeleteApp_ok_spec f st ns name app x _ rfl h
    exact hix

theorem C4_witness :
    lookupEntry
      (CreateApp env0 noFaults store0 "ns" none appP []).store.persist.index
      ("ns", "a") = some ["n1", "n2"] := by
  have h := C4_index_consistency.2.1 env0 noFaults store0 "ns" none appP []
    (some appP) (by decide)
  have h2 : env0.selectNodes (effApp appP).selector = ["n1", "n2"] := by decide
  rw [h2] at h
  exact h

/-- C8: with a fault oracle that fails only generated-config deletions, an
`UpdateApp`/`DeleteApp` still reports success; every failed deletion is
recorded as a dirty-data diagnostic carrying the entity type, namespace and
name; and the reconciliation continues past failures, still deleting every
other orphaned generated Configuration. -/
theorem C8_dirty_data :
    (∀ env g st ns old app configs,
      (UpdateApp env (deleteOnlyFaults g) st ns (some old) app configs).outcome
        = Outcome.ok (some (effApp app))) ∧
    (∀ env g st ns old app configs (v : Volume) (vc : VolumeConfig),
      v ∈ old.volumes → v.config = some vc →
      genConfigCandidate (survivorSet configs) vc.name = true → g vc.name = true →
      (⟨configEntity, old.nameSpace, vc.name⟩ : Diag)
        ∈ (UpdateApp env (deleteOnlyFaults g) st ns (some old) app configs).store.diags) ∧
    (∀ env g st ns old app configs (v : Volume) (vc : VolumeConfig),
      v ∈ old.volumes → v.config = some vc →
      genConfigCandidate (survivorSet configs) vc.name = true → g vc.name = false →
      lookupEntry
        (UpdateApp env (deleteOnlyFaults g) st ns (some old) app configs).store.persist.configs
        (old.nameSpace, vc.name) = none) ∧
    (∀ g st ns name app,
      (DeleteApp (deleteOnlyFaults g) st ns name app).outcome = Outcome.ok none) ∧
    (∀ g st ns name app (v : Volume) (vc : VolumeConfig),
      v ∈ app.volumes → v.config = some vc →
      genConfigCandidate (survivorSet ([] : List Configuration)) vc.name = true →
      g vc.name = true →
      (⟨configEntity, app.nameSpace, vc.name⟩ : Diag)
        ∈ (DeleteApp (deleteOnlyFaults g) st ns name app).store.diags) := by
  refine ⟨?_, ?_, ?_, ?_, ?_⟩
  · intro env g st ns old app configs
    exact UpdateApp_flags_ok env (deleteOnlyFaults g) st ns old app configs
      (fun _ => rfl) rfl rfl rfl rfl rfl rfl rfl
  · intro env g st ns old app configs v vc hv hvc hc hg
    have hok := UpdateApp_flags_ok env (deleteOnlyFaults g) st ns old app configs
      (fun _ => rfl) rfl rfl rfl rfl rfl rfl rfl
    obtain ⟨_, _, _, _, _, _, _, _, _, _, hdg, _⟩ :=
      UpdateApp_ok_spec env (deleteOnlyFaults g) st ns old app configs _ _ rfl hok
    exact hdg v vc hv hvc hc hg
  · intro env g st ns old app configs v vc hv hvc hc hg
    have hok := UpdateApp_flags_ok env (deleteOnlyFaults g) st ns old app configs
      (fun _ => rfl) rfl rfl rfl rfl rfl rfl rfl
    obtain ⟨_, _, _, _, hcf, _, _, _, _, _, _, _⟩ :=
      UpdateApp_ok_spec env (deleteOnlyFaults g) st ns old app configs _ _ rfl hok
    exact hcf (old.nameSpace, vc.name) rfl
      (deletedBy_of_volume (deleteOnlyFaults g) _ _ v vc hv hvc hc hg)
  · intro g st ns name app
    exact DeleteApp_flags_ok (deleteOnlyFaults g) st ns name app rfl rfl rfl rfl
  · intro g st ns name app v vc hv hvc hc hg
    have hok := DeleteApp_flags_ok (deleteOnlyFaults g) st ns name app rfl rfl rfl rfl
    obtain ⟨_, _, _, _, _, _, _, hdg, _⟩ :=
      DeleteApp_ok_spec (deleteOnlyFaults g) st ns name app _ _ rfl hok
    exact hdg v vc hv hvc hc hg

theorem C8_witness :
    (⟨"config", "ns", "baetyl-function-program-config-b"⟩ : Diag)
      ∈ (UpdateApp env0 (deleteOnlyFaults g8) storeC "ns" (some oldC) newC [cfgA]).store.diags :=
  C8_dirty_data.2.1 env0 g8 storeC "ns" oldC newC [cfgA]
    (volOf "baetyl-function-program-config-b") ⟨"baetyl-function-program-config-b"⟩
    (by decide) rfl (by decide) (by decide)

/-- C9 (as stated) is false about the fault's location: with `oldApp == nil`
the panic fires at the Wait-to-NotSet check's dereference of
`oldApp.CronStatus`, before the Application update (no `appUpdate` call is
ever made, so the reconciliation loop over `oldApp.Volumes` is never
reached). -/
theorem C9_counterexample :
    (UpdateApp env0 noFaults store0 "ns" none appW []).outcome
      = Outcome.panicked PanicSite.oldAppCronStatusCheck ∧
    ¬(UpdateApp env0 noFaults store0 "ns" none appW []).outcome
      = Outcome.panicked PanicSite.oldAppVolumesIter ∧
    Event.appUpdate "ns" "a" ∉ (UpdateApp env0 noFaults store0 "ns" none appW []).events := by
  decide

/-- C9 amended: every `UpdateApp` call with `oldApp == nil` fails — it either
returns an earlier step's error or panics — and when it panics, the panic
site is the `oldApp.CronStatus` dereference in the Wait-to-NotSet check (not
the reconciliation loop, which is never reached: no Application update call
appears in the trace); the deferred handler rolls the transaction back
(transactional stores unchanged, rollback is the final trace event) before
re-raising. -/
theorem C9_amended (env : Env) (f : Faults) (st : Store) (ns : String)
    (app : Application) (configs : List Configuration) :
    (∀ a, (UpdateApp env f st ns none app configs).outcome ≠ Outcome.ok a) ∧
    (∀ s, (UpdateApp env f st ns none app configs).outcome = Outcome.panicked s →
      s = PanicSite.oldAppCronStatusCheck ∧
      (UpdateApp env f st ns none app configs).store.persist = st.persist ∧
      (UpdateApp env f st ns none app configs).events.getLast?
        = some Event.rollbackTx ∧
      (∀ n, Event.appUpdate ns n ∉ (UpdateApp env f st ns none app configs).events)) := by
  rcases hug : updateGenConfigsOfFunctionApp f ns configs st.persist [Event.beginTx]
    with ⟨otx, evs1⟩
  cases otx with
  | none =>
    have hres : UpdateApp env f st ns none app configs
        = ⟨Outcome.err, st, evs1 ++ [Event.rollbackTx]⟩ := by
      simp only [UpdateApp, hug, rollbackErr]
    rw [hres]
    exact ⟨fun a h => Outcome.noConfusion h, fun s h => Outcome.noConfusion h⟩
  | some tx1 =>
    have hevshape : ∀ e0, e0 ∈ evs1 →
        e0 = Event.beginTx ∨ ∃ n, e0 = Event.configUpsert ns n := by
      intro e0 he0
      have hs := updateGen_events_shape f ns configs st.persist [Event.beginTx] e0
      rw [hug] at hs
      simpa using hs he0
    by_cases hw : app.cronStatus = CronStatus.wait
    · by_cases hcu : f.cronUpdateFail = true
      · have hres : UpdateApp env f st ns none app configs
            = ⟨Outcome.err, st,
               (evs1 ++ [Event.cronUpdate app.name app.nameSpace])
                 ++ [Event.rollbackTx]⟩ := by
          simp only [UpdateApp, hug, if_pos hw, hcu, if_true, rollbackErr]
        rw [hres]
        exact ⟨fun a h => Outcome.noConfusion h, fun s h => Outcome.noConfusion h⟩
      · have hcu' : f.cronUpdateFail = false := by simpa using hcu
        have hres : UpdateApp env f st ns none app configs
            = ⟨Outcome.panicked PanicSite.oldAppCronStatusCheck,
               ⟨st.persist,
                upsertCron st.crons ⟨app.name, app.nameSpace, app.selector, app.cronTime⟩,
                st.diags⟩,
               (evs1 ++ [Event.cronUpdate app.name app.nameSpace])
                 ++ [Event.rollbackTx]⟩ := by
          simp only [UpdateApp, hug, if_pos hw, hcu', Bool.false_eq_true, if_false,
            updateAppWithOld]
        rw [hres]
        refine ⟨fun a h => Outcome.noConfusion h, ?_⟩
        intro s h
        have hs : PanicSite.oldAppCronStatusCheck = s := by
          cases h
          rfl
        refine ⟨hs.symm, rfl, by simp, ?_⟩
        intro n hmem
        rcases List.mem_append.mp hmem with h2 | h2
        · rcases List.mem_append.mp h2 with h3 | h3
          · rcases hevshape _ h3 with h4 | ⟨n1, h4⟩ <;> cases h4
          · simp at h3
        · simp at h2
    · have hres : UpdateApp env f st ns none app configs
          = ⟨Outcome.panicked PanicSite.oldAppCronStatusCheck,
             ⟨st.persist, st.crons, st.diags⟩, evs1 ++ [Event.rollbackTx]⟩ := by
        simp only [UpdateApp, hug, if_neg hw, updateAppWithOld]
      rw [hres]
      refine ⟨fun a h => Outcome.noConfusion h, ?_⟩
      intro s h
      have hs : PanicSite.oldAppCronStatusCheck = s := by
        cases h
        rfl
      refine ⟨hs.symm, rfl, by simp, ?_⟩
      intro n hmem
      rcases List.mem_append.mp hmem with h2 | h2
      · rcases hevshape _ h2 with h4 | ⟨n1, h4⟩ <;> cases h4
      · simp at h2

theorem C9_amended_witness :
    (UpdateApp env0 noFaults store0 "ns" none appW []).store.persist
      = store0.persist :=
  ((C9_amended env0 noFaults store0 "ns" appW []).2
    PanicSite.oldAppCronStatusCheck (by decide)).2.1

/-! ### The Cron invariant -/

/-- The claim's invariant, literally: every stored Application is in Wait
state iff a Cron record with its (name, namespace) exists. -/
def appsCronWaitIff (st : Store) : Bool :=
  st.persist.apps.all (fun kv =>
    decide (kv.2.cronStatus = CronStatus.wait)
      == hasCron st.crons kv.2.name kv.2.nameSpace)

/-- The two-directional invariant of the spec (§3): additionally, every Cron
record is owned by some stored Wait-state Application. -/
def cronConsistent (st : Store) : Bool :=
  appsCronWaitIff st &&
  st.crons.all (fun c => st.persist.apps.any (fun kv =>
    decide (kv.2.name = c.name ∧ kv.2.nameSpace = c.nameSpace
      ∧ kv.2.cronStatus = CronStatus.wait)))

/-- Store well-formedness: each Application record is stored under the key
made of its own Namespace and Name, and keys are unique. -/
def storeWF (st : Store) : Bool :=
  st.persist.apps.all (fun kv => decide (kv.1.1 = kv.2.nameSpace ∧ kv.1.2 = kv.2.name))
    && decide ((st.persist.apps.map Prod.fst).Nodup)

/-- Proposition form of `cronConsistent`. -/
def CronOKP (apps : List ((String × String) × Application)) (crons : List Cron) :
    Prop :=
  (∀ kv ∈ apps, (kv.2.cronStatus = CronStatus.wait ↔
    ∃ c ∈ crons, c.name = kv.2.name ∧ c.nameSpace = kv.2.nameSpace)) ∧
  (∀ c ∈ crons, ∃ kv ∈ apps,
    kv.2.name = c.name ∧ kv.2.nameSpace = c.nameSpace
      ∧ kv.2.cronStatus = CronStatus.wait)

/-- Proposition form of `storeWF`. -/
def WFP (apps : List ((String × String) × Application)) : Prop :=
  (∀ kv ∈ apps, kv.1.1 = kv.2.nameSpace ∧ kv.1.2 = kv.2.name) ∧
  (∀ (k : String × String) (v1 v2 : Application),
    (k, v1) ∈ apps → (k, v2) ∈ apps → v1 = v2)

theorem decide_beq_iff (p : Prop) [Decidable p] (b : Bool) :
    ((decide p == b) = true) ↔ (p ↔ b = true) := by
  cases b <;> simp

theorem cronConsistent_iff (st : Store) :
    cronConsistent st = true ↔ CronOKP st.persist.apps st.crons := by
  unfold cronConsistent appsCronWaitIff CronOKP
  rw [Bool.and_eq_true, List.all_eq_true, List.all_eq_true]
  constructor
  · rintro ⟨h1, h2⟩
    constructor
    · intro kv hkv
      have hh := h1 kv hkv
      rw [decide_beq_iff] at hh
      rw [hh, hasCron_iff]
    · intro c hc
      have hh := h2 c hc
      rw [List.any_eq_true] at hh
      obtain ⟨kv, hkv, hp⟩ := hh
      rw [decide_eq_true_eq] at hp
      exact ⟨kv, hkv, hp⟩
  · rintro ⟨h1, h2⟩
    constructor
    · intro kv hkv
      rw [decide_beq_iff, hasCron_iff]
      exact h1 kv hkv
    · intro c hc
      rw [List.any_eq_true]
      obtain ⟨kv, hkv, hp⟩ := h2 c hc
      exact ⟨kv, hkv, by rw [decide_eq_true_eq]; exact hp⟩

theorem storeWF_implies (st : Store) (h : storeWF st = true) : WFP st.persist.apps := by
  unfold storeWF at h
  rw [Bool.and_eq_true, List.all_eq_true] at h
  obtain ⟨h1, h2⟩ := h
  constructor
  · intro kv hkv
    have hh := h1 kv hkv
    rwa [decide_eq_true_eq] at hh
  · intro k v1 v2 hm1 hm2
    rw [decide_eq_true_eq] at h2
    exact eq_of_nodupKeys _ h2 k v1 v2 hm1 hm2

theorem effApp_nameSpace (app : Application) :
    (effApp app).nameSpace = app.nameSpace := by
  unfold effApp
  split <;> rfl

theorem key_eq_of_fields {kv : (String × String) × Application} {nm s : String}
    (hWF1 : kv.1.1 = kv.2.nameSpace ∧ kv.1.2 = kv.2.name)
    (hn : kv.2.name = nm) (hs : kv.2.nameSpace = s) : kv.1 = (s, nm) := by
  have he : kv.1 = (kv.1.1, kv.1.2) := rfl
  rw [he, hWF1.1, hWF1.2, hn, hs]

theorem match_upsertCron_ne (C : List Cron) (cW : Cron) (nm s : String)
    (h : ¬(cW.name = nm ∧ cW.nameSpace = s)) :
    (∃ c ∈ upsertCron C cW, c.name = nm ∧ c.nameSpace = s)
      ↔ (∃ c ∈ C, c.name = nm ∧ c.nameSpace = s) := by
  constructor
  · rintro ⟨c, hc, hm⟩
    rcases mem_upsertCron.mp hc with he | ⟨hcm, _⟩
    · exact absurd (he ▸ hm) h
    · exact ⟨c, hcm, hm⟩
  · rintro ⟨c, hc, hm⟩
    refine ⟨c, mem_upsertCron.mpr (Or.inr ⟨hc, ?_⟩), hm⟩
    rintro ⟨h1, h2⟩
    exact h ⟨by rw [← h1]; exact hm.1, by rw [← h2]; exact hm.2⟩

theorem match_deleteCronRec_ne (C : List Cron) (nm0 s0 nm s : String)
    (h : ¬(nm = nm0 ∧ s = s0)) :
    (∃ c ∈ deleteCronRec C nm0 s0, c.name = nm ∧ c.nameSpace = s)
      ↔ (∃ c ∈ C, c.name = nm ∧ c.nameSpace = s) := by
  constructor
  · rintro ⟨c, hc, hm⟩
    exact ⟨c, (mem_deleteCronRec.mp hc).1, hm⟩
  · rintro ⟨c, hc, hm⟩
    refine ⟨c, mem_deleteCronRec.mpr ⟨hc, ?_⟩, hm⟩
    rintro ⟨h1, h2⟩
    exact h ⟨by rw [← hm.1]; exact h1, by rw [← hm.2]; exact h2⟩

theorem CronOKP_afterCreate (A : List ((String × String) × Application))
    (C : List Cron) (ns : String) (app : Application)
    (hWF : WFP A) (hOK : CronOKP A C) (hns : app.nameSpace = ns)
    (hnone : lookupEntry A (ns, app.name) = none) :
    CronOKP (upsertEntry A (ns, app.name) (effApp app))
      (if app.cronStatus = CronStatus.wait
       then createCron C ⟨app.name, app.nameSpace, app.selector, app.cronTime⟩
       else C) := by
  have hnomem : ∀ kv ∈ A, kv.1 ≠ (ns, app.name) := lookupEntry_eq_none_iff.mp hnone
  have hkeyC : ∀ c ∈ C, ¬(c.name = app.name ∧ c.nameSpace = ns) := by
    rintro c hc ⟨e1, e2⟩
    obtain ⟨kv, hkv, hn1, hn2, _⟩ := hOK.2 c hc
    exact hnomem kv hkv (key_eq_of_fields (hWF.1 kv hkv)
      (by rw [hn1, e1]) (by rw [hn2, e2]))
  by_cases hw : app.cronStatus = CronStatus.wait
  · rw [if_pos hw]
    constructor
    · intro kv hkv
      rcases mem_upsertEntry.mp hkv with he | ⟨hmem, hne⟩
      · subst he
        constructor
        · intro _
          exact ⟨⟨app.name, app.nameSpace, app.selector, app.cronTime⟩,
            List.mem_cons_self _ _, (effApp_name app).symm, (effApp_nameSpace app).symm⟩
        · intro _
          rw [effApp_cronStatus]
          exact hw
      · have hfne : ¬(kv.2.name = app.name ∧ kv.2.nameSpace = ns) := by
          rintro ⟨e1, e2⟩
          exact hne (key_eq_of_fields (hWF.1 kv hmem) e1 e2)
        constructor
        · intro hwait
          obtain ⟨c, hc, hcn, hcns⟩ := (hOK.1 kv hmem).mp hwait
          exact ⟨c, List.mem_cons_of_mem _ hc, hcn, hcns⟩
        · rintro ⟨c, hc, hcn, hcns⟩
          rcases List.mem_cons.mp hc with hce | hcm
          · exfalso
            subst hce
            exact hfne ⟨hcn.symm, by rw [← hcns, hns]⟩
          · exact (hOK.1 kv hmem).mpr ⟨c, hcm, hcn, hcns⟩
    · intro c hc
      rcases List.mem_cons.mp hc with hce | hcm
      · subst hce
        exact ⟨((ns, app.name), effApp app), mem_upsertEntry.mpr (Or.inl rfl),
          effApp_name app, effApp_nameSpace app, by rw [effApp_cronStatus]; exact hw⟩
      · obtain ⟨kv, hkv, hn1, hn2, hwait⟩ := hOK.2 c hcm
        exact ⟨kv, mem_upsertEntry.mpr (Or.inr ⟨hkv, hnomem kv hkv⟩), hn1, hn2, hwait⟩
  · rw [if_neg hw]
    constructor
    · intro kv hkv
      rcases mem_upsertEntry.mp hkv with he | ⟨hmem, hne⟩
      · subst he
        constructor
        · intro hwait
          rw [effApp_cronStatus] at hwait
          exact absurd hwait hw
        · rintro ⟨c, hc, hcn, hcns⟩
          exact absurd ⟨by rw [hcn, effApp_name], by rw [hcns, effApp_nameSpace, hns]⟩
            (hkeyC c hc)
      · exact hOK.1 kv hmem
    · intro c hc
      obtain ⟨kv, hkv, hn1, hn2, hwait⟩ := hOK.2 c hc
      exact ⟨kv, mem_upsertEntry.mpr (Or.inr ⟨hkv, hnomem kv hkv⟩), hn1, hn2, hwait⟩

theorem CronOKP_afterUpdate (A : List ((String × String) × Application))
    (C : List Cron) (ns : String) (old app : Application)
    (hWF : WFP A) (hOK : CronOKP A C) (hns : app.nameSpace = ns)
    (hsome : lookupEntry A (ns, app.name) = some old)
    (hexc : ¬(old.cronStatus = CronStatus.wait
      ∧ app.cronStatus = CronStatus.scheduled)) :
    CronOKP (upsertEntry A (ns, app.name) (effApp app))
      (if old.cronStatus = CronStatus.wait ∧ app.cronStatus = CronStatus.notSet
       then deleteCronRec (cronsAfterUpd app C) app.name ns
       else cronsAfterUpd app C) := by
  have hmemold : ((ns, app.name), old) ∈ A := lookupEntry_eq_some_mem hsome
  have holdf := hWF.1 _ hmemold
  have holdns : old.nameSpace = ns := holdf.1.symm
  have holdnm : old.name = app.name := holdf.2.symm
  have hfne : ∀ kv ∈ A, kv.1 ≠ (ns, app.name) →
      ¬(kv.2.name = app.name ∧ kv.2.nameSpace = ns) := by
    rintro kv hkv hne ⟨e1, e2⟩
    exact hne (key_eq_of_fields (hWF.1 kv hkv) e1 e2)
  have hmatchold : ∀ c ∈ C, c.name = app.name ∧ c.nameSpace = ns →
      old.cronStatus = CronStatus.wait := by
    rintro c hc ⟨e1, e2⟩
    obtain ⟨kv, hkv, hn1, hn2, hwait⟩ := hOK.2 c hc
    have hkey : kv.1 = (ns, app.name) :=
      key_eq_of_fields (hWF.1 kv hkv) (by rw [hn1, e1]) (by rw [hn2, e2])
    have hmem2 : ((ns, app.name), kv.2) ∈ A := by
      rw [← hkey]
      exact hkv
    have : kv.2 = old := hWF.2 _ _ _ hmem2 hmemold
    rw [this] at hwait
    exact hwait
  by_cases happw : app.cronStatus = CronStatus.wait
  · have hcond : ¬(old.cronStatus = CronStatus.wait
        ∧ app.cronStatus = CronStatus.notSet) := by
      rintro ⟨_, h2⟩
      rw [happw] at h2
      cases h2
    rw [if_neg hcond]
    have hca : cronsAfterUpd app C
        = upsertCron C ⟨app.name, app.nameSpace, app.selector, app.cronTime⟩ := by
      simp [cronsAfterUpd, happw]
    rw [hca]
    constructor
    · intro kv hkv
      rcases mem_upsertEntry.mp hkv with he | ⟨hmem, hne⟩
      · subst he
        constructor
        · intro _
          exact ⟨⟨app.name, app.nameSpace, app.selector, app.cronTime⟩,
            List.mem_cons_self _ _, (effApp_name app).symm, (effApp_nameSpace app).symm⟩
        · intro _
          rw [effApp_cronStatus]
          exact happw
      · have hcw : ¬((⟨app.name, app.nameSpace, app.selector, app.cronTime⟩ : Cron).name
            = kv.2.name
            ∧ (⟨app.name, app.nameSpace, app.selector, app.cronTime⟩ : Cron).nameSpace
            = kv.2.nameSpace) := by
          rintro ⟨e1, e2⟩
          exact hfne kv hmem hne ⟨e1.symm, by rw [← e2, hns]⟩
        rw [match_upsertCron_ne _ _ _ _ hcw]
        exact hOK.1 kv hmem
    · intro c hc
      rcases mem_upsertCron.mp hc with he | ⟨hcm, hni⟩
      · subst he
        exact ⟨((ns, app.name), effApp app), mem_upsertEntry.mpr (Or.inl rfl),
          effApp_name app, effApp_nameSpace app, by rw [effApp_cronStatus]; exact happw⟩
      · obtain ⟨kv, hkv, hn1, hn2, hwait⟩ := hOK.2 c hcm
        by_cases hkey : kv.1 = (ns, app.name)
        · exfalso
          have hmem2 : ((ns, app.name), kv.2) ∈ A := by
            rw [← hkey]
            exact hkv
          have heq : kv.2 = old := hWF.2 _ _ _ hmem2 hmemold
          apply hni
          constructor
          · rw [← hn1, heq, holdnm]
          · rw [← hn2, heq, holdns, hns]
        · exact ⟨kv, mem_upsertEntry.mpr (Or.inr ⟨hkv, hkey⟩), hn1, hn2, hwait⟩
  · have hca : cronsAfterUpd app C = C := by
      simp [cronsAfterUpd, happw]
    by_cases hcond : old.cronStatus = CronStatus.wait
        ∧ app.cronStatus = CronStatus.notSet
    · rw [if_pos hcond, hca]
      constructor
      · intro kv hkv
        rcases mem_upsertEntry.mp hkv with he | ⟨hmem, hne⟩
        · subst he
          constructor
          · intro hwait
            rw [effApp_cronStatus, hcond.2] at hwait
            cases hwait
          · rintro ⟨c, hc, hcn, hcns⟩
            exact ((mem_deleteCronRec.mp hc).2
              ⟨by rw [hcn, effApp_name], by rw [hcns, effApp_nameSpace, hns]⟩).elim
        · rw [match_deleteCronRec_ne _ _ _ _ _ (hfne kv hmem hne)]
          exact hOK.1 kv hmem
      · intro c hc
        obtain ⟨hcm, hni⟩ := mem_deleteCronRec.mp hc
        obtain ⟨kv, hkv, hn1, hn2, hwait⟩ := hOK.2 c hcm
        by_cases hkey : kv.1 = (ns, app.name)
        · exfalso
          have hmem2 : ((ns, app.name), kv.2) ∈ A := by
            rw [← hkey]
            exact hkv
          have heq : kv.2 = old := hWF.2 _ _ _ hmem2 hmemold
          apply hni
          constructor
          · rw [← hn1, heq, holdnm]
          · rw [← hn2, heq, holdns]
        · exact ⟨kv, mem_upsertEntry.mpr (Or.inr ⟨hkv, hkey⟩), hn1, hn2, hwait⟩
    · rw [if_neg hcond, hca]
      have hold : old.cronStatus ≠ CronStatus.wait := by
        intro how
        cases happst : app.cronStatus with
        | wait => exact happw happst
        | notSet => exact hcond ⟨how, happst⟩
        | scheduled => exact hexc ⟨how, happst⟩
      constructor
      · intro kv hkv
        rcases mem_upsertEntry.mp hkv with he | ⟨hmem, hne⟩
        · subst he
          constructor
          · intro hwait
            rw [effApp_cronStatus] at hwait
            exact absurd hwait happw
          · rintro ⟨c, hc, hcn, hcns⟩
            exact absurd (hmatchold c hc
              ⟨by rw [hcn, effApp_name], by rw [hcns, effApp_nameSpace, hns]⟩) hold
        · exact hOK.1 kv hmem
      · intro c hc
        obtain ⟨kv, hkv, hn1, hn2, hwait⟩ := hOK.2 c hc
        by_cases hkey : kv.1 = (ns, app.name)
        · exfalso
          have hmem2 : ((ns, app.name), kv.2) ∈ A := by
            rw [← hkey]
            exact hkv
          have heq : kv.2 = old := hWF.2 _ _ _ hmem2 hmemold
          rw [heq] at hwait
          exact hold hwait
        · exact ⟨kv, mem_upsertEntry.mpr (Or.inr ⟨hkv, hkey⟩), hn1, hn2, hwait⟩

theorem CronOKP_afterDelete (A : List ((String × String) × Application))
    (C : List Cron) (ns name : String) (app : Application)
    (hWF : WFP A) (hOK : CronOKP A C)
    (hsome : lookupEntry A (ns, name) = some app) :
    CronOKP (deleteEntry A (ns, name))
      (if app.cronStatus = CronStatus.wait then deleteCronRec C name ns else C) := by
  have hmemapp : ((ns, name), app) ∈ A := lookupEntry_eq_some_mem hsome
  have happf := hWF.1 _ hmemapp
  have happns : app.nameSpace = ns := happf.1.symm
  have happnm : app.name = name := happf.2.symm
  have hfne : ∀ kv ∈ A, kv.1 ≠ (ns, name) →
      ¬(kv.2.name = name ∧ kv.2.nameSpace = ns) := by
    rintro kv hkv hne ⟨e1, e2⟩
    exact hne (key_eq_of_fields (hWF.1 kv hkv) e1 e2)
  have hmatchapp : ∀ c ∈ C, c.name = name ∧ c.nameSpace = ns →
      app.cronStatus = CronStatus.wait := by
    rintro c hc ⟨e1, e2⟩
    obtain ⟨kv, hkv, hn1, hn2, hwait⟩ := hOK.2 c hc
    have hkey : kv.1 = (ns, name) :=
      key_eq_of_fields (hWF.1 kv hkv) (by rw [hn1, e1]) (by rw [hn2, e2])
    have hmem2 : ((ns, name), kv.2) ∈ A := by
      rw [← hkey]
      exact hkv
    have : kv.2 = app := hWF.2 _ _ _ hmem2 hmemapp
    rw [this] at hwait
    exact hwait
  by_cases hw : app.cronStatus = CronStatus.wait
  · rw [if_pos hw]
    constructor
    · intro kv hkv
      obtain ⟨hmem, hne⟩ := mem_deleteEntry.mp hkv
      rw [match_deleteCronRec_ne _ _ _ _ _ (hfne kv hmem hne)]
      exact hOK.1 kv hmem
    · intro c hc
      obtain ⟨hcm, hni⟩ := mem_deleteCronRec.mp hc
      obtain ⟨kv, hkv, hn1, hn2, hwait⟩ := hOK.2 c hcm
      by_cases hkey : kv.1 = (ns, name)
      · exfalso
        have hmem2 : ((ns, name), kv.2) ∈ A := by
          rw [← hkey]
          exact hkv
        have heq : kv.2 = app := hWF.2 _ _ _ hmem2 hmemapp
        apply hni
        constructor
        · rw [← hn1, heq, happnm]
        · rw [← hn2, heq, happns]
      · exact ⟨kv, mem_deleteEntry.mpr ⟨hkv, hkey⟩, hn1, hn2, hwait⟩
  · rw [if_neg hw]
    constructor
    · intro kv hkv
      obtain ⟨hmem, _⟩ := mem_deleteEntry.mp hkv
      exact hOK.1 kv hmem
    · intro c hc
      obtain ⟨kv, hkv, hn1, hn2, hwait⟩ := hOK.2 c hc
      by_cases hkey : kv.1 = (ns, name)
      · exfalso
        have hmem2 : ((ns, name), kv.2) ∈ A := by
          rw [← hkey]
          exact hkv
        have heq : kv.2 = app := hWF.2 _ _ _ hmem2 hmemapp
        rw [heq] at hwait
        exact hw hwait
      · exact ⟨kv, mem_deleteEntry.mpr ⟨hkv, hkey⟩, hn1, hn2, hwait⟩

/-- Wait-state replacement body used by the C3 witness (Wait-to-Wait). -/
def newW2 : Application := ⟨"a", "ns", "v2", "sel2", CronStatus.wait, "ct", []⟩

/-- C3 (as stated) is false: a successful `UpdateApp` taking an application
from Wait to Scheduled leaves its Cron record in place, so afterwards the
stored application is not in Wait state yet a Cron record with its
(name, namespace) exists — the claimed iff fails even though it held before
the call. -/
theorem C3_counterexample :
    appsCronWaitIff storeW = true ∧
    cronConsistent storeW = true ∧
    (UpdateApp env0 noFaults storeW "ns" (some oldW) newS []).outcome
      = Outcome.ok (some newS) ∧
    appsCronWaitIff (UpdateApp env0 noFaults storeW "ns" (some oldW) newS []).store
      = false := by
  decide

/-- C3 amended: the Cron invariant (every stored Application is in Wait state
iff an owned Cron record exists, and every Cron record belongs to a stored
Wait-state Application) is preserved by every successful facade operation on
a well-formed store whose argument namespace matches the application and
whose `oldApp`/`app` argument is the currently stored record — except for an
`UpdateApp` whose transition is Wait to Scheduled, which leaves the Cron
record of a no-longer-Wait application behind; and whenever `CreateApp` or
`UpdateApp` brings an Application into Wait state, the persisted Application
has an empty Selector while the supplied selector is stored on the Cron
record. -/
theorem C3_amended :
    (∀ env f st ns baseApp app configs x,
      storeWF st = true → cronConsistent st = true → app.nameSpace = ns →
      lookupEntry st.persist.apps (ns, app.name) = none →
      (CreateApp env f st ns baseApp app configs).outcome = Outcome.ok x →
      cronConsistent (CreateApp env f st ns baseApp app configs).store = true) ∧
    (∀ env f st ns old app configs x,
      storeWF st = true → cronConsistent st = true → app.nameSpace = ns →
      lookupEntry st.persist.apps (ns, app.name) = some old →
      ¬(old.cronStatus = CronStatus.wait
        ∧ app.cronStatus = CronStatus.scheduled) →
      (UpdateApp env f st ns (some old) app configs).outcome = Outcome.ok x →
      cronConsistent (UpdateApp env f st ns (some old) app configs).store = true) ∧
    (∀ f st ns name app x,
      storeWF st = true → cronConsistent st = true →
      lookupEntry st.persist.apps (ns, name) = some app →
      (DeleteApp f st ns name app).outcome = Outcome.ok x →
      cronConsistent (DeleteApp f st ns name app).store = true) ∧
    (∀ env f st ns baseApp app configs x,
      app.cronStatus = CronStatus.wait →
      (CreateApp env f st ns baseApp app configs).outcome = Outcome.ok x →
      x = some (effApp app) ∧ (effApp app).selector = "" ∧
      findCron (CreateApp env f st ns baseApp app configs).store.crons
          app.name app.nameSpace
        = some ⟨app.name, app.nameSpace, app.selector, app.cronTime⟩) ∧
    (∀ env f st ns old app configs x,
      app.cronStatus = CronStatus.wait →
      (UpdateApp env f st ns (some old) app configs).outcome = Outcome.ok x →
      x = some (effApp app) ∧ (effApp app).selector = "" ∧
      findCron (UpdateApp env f st ns (some old) app configs).store.crons
          app.name app.nameSpace
        = some ⟨app.name, app.nameSpace, app.selector, app.cronTime⟩) := by
  refine ⟨?_, ?_, ?_, ?_, ?_⟩
  · intro env f st ns baseApp app configs x hwf hcc hns hnone h
    obtain ⟨_, hap, hcr, _, _, _⟩ :=
      CreateApp_ok_spec env f st ns baseApp app configs x _ rfl h
    rw [cronConsistent_iff]
    rw [show (CreateApp env f st ns baseApp app configs).store.persist.apps
        = upsertEntry st.persist.apps (ns, app.name) (effApp app) from hap]
    rw [show (CreateApp env f st ns baseApp app configs).store.crons
        = (if app.cronStatus = CronStatus.wait
           then createCron st.crons ⟨app.name, app.nameSpace, app.selector, app.cronTime⟩
           else st.crons) from hcr]
    exact CronOKP_afterCreate st.persist.apps st.crons ns app
      (storeWF_implies st hwf) ((cronConsistent_iff st).mp hcc) hns hnone
  · intro env f st ns old app configs x hwf hcc hns hsome hexc h
    obtain ⟨_, hcr, hap, _, _, _, _, _, _, _, _, _⟩ :=
      UpdateApp_ok_spec env f st ns old app configs x _ rfl h
    rw [cronConsistent_iff]
    rw [show (UpdateApp env f st ns (some old) app configs).store.persist.apps
        = upsertEntry st.persist.apps (ns, app.name) (effApp app) from hap]
    rw [show (UpdateApp env f st ns (some old) app configs).store.crons
        = (if old.cronStatus = CronStatus.wait ∧ app.cronStatus = CronStatus.notSet
           then deleteCronRec (cronsAfterUpd app st.crons) app.name ns
           else cronsAfterUpd app st.crons) from hcr]
    exact CronOKP_afterUpdate st.persist.apps st.crons ns old app
      (storeWF_implies st hwf) ((cronConsistent_iff st).mp hcc) hns hsome hexc
  · intro f st ns name app x hwf hcc hsome h
    obtain ⟨_, hap, hcr, _, _, _, _, _, _⟩ :=
      DeleteApp_ok_spec f st ns name app x _ rfl h
    rw [cronConsistent_iff]
    rw [show (DeleteApp f st ns name app).store.persist.apps
        = deleteEntry st.persist.apps (ns, name) from hap]
    rw [show (DeleteApp f st ns name app).store.crons
        = (if app.cronStatus = CronStatus.wait
           then deleteCronRec st.crons name ns else st.crons) from hcr]
    exact CronOKP_afterDelete st.persist.apps st.crons ns name app
      (storeWF_implies st hwf) ((cronConsistent_iff st).mp hcc) hsome
  · intro env f st ns baseApp app configs x hw h
    obtain ⟨hx, _, hcr, _, _, _⟩ :=
      CreateApp_ok_spec env f st ns baseApp app configs x _ rfl h
    refine ⟨hx, by simp [effApp, hw], ?_⟩
    rw [hcr, if_pos hw]
    exact findCron_createCron_self st.crons _
  · intro env f st ns old app configs x hw h
    obtain ⟨hx, hcr, _, _, _, _, _, _, _, _, _, _⟩ :=
      UpdateApp_ok_spec env f st ns old app configs x _ rfl h
    refine ⟨hx, by simp [effApp, hw], ?_⟩
    rw [hcr, if_neg (by rintro ⟨_, h2⟩; rw [hw] at h2; cases h2)]
    have hca : cronsAfterUpd app st.crons
        = upsertCron st.crons ⟨app.name, app.nameSpace, app.selector, app.cronTime⟩ := by
      simp [cronsAfterUpd, hw]
    rw [hca]
    exact findCron_upsertCron_self st.crons _

theorem C3_amended_witness :
    cronConsistent (UpdateApp env0 noFaults storeW "ns" (some oldW) newW2 []).store
      = true :=
  C3_amended.2.1 env0 noFaults storeW "ns" oldW newW2 [] (some (effApp newW2))
    (by decide) (by decide) (by decide) (by decide) (by decide) (by decide)

end Baetyl
